import Mathlib

/-!
Verification development for the taxpilot transaction-reconciliation and
tax-matching pipeline (`backend/app`).

Modelling conventions:
* Python `Decimal` values are modelled as exact rationals (`ℚ`); every
  explicit `quantize(Decimal("0.01"), ROUND_HALF_UP)` in the source is
  modelled by `qRound2`, and `math.floor` by `Int.floor`.
* `datetime.date` values are modelled by their proleptic-Gregorian ordinal
  (`Nat`, as in Python's `date.toordinal`); `datetime.datetime` by a pair
  (day ordinal, time-of-day) compared lexicographically.
* Python's `list.sort` is a stable sort; a stable sort's output is uniquely
  determined by the key relation, so it is embedded as `List.insertionSort`
  (which is stable) with the same key relation.
* The SQLite rate cache and the remote NBP HTTP API are modelled as fixed
  oracle functions `(currency, date) → Option rate`; writing a fetched rate
  back into the cache does not change the value returned by the call being
  modelled, so cache upserts are not tracked.
* Python dicts preserve insertion order; they are modelled as association
  lists where updating an absent key appends at the end.
* String rendering of numbers and dates inside warning messages is
  simplified (the warning text is never parsed by the program).
-/

namespace Taxpilot

/-- `Decimal.quantize(Decimal("0.01"), ROUND_HALF_UP)`: round to two decimal
places, ties away from zero (Python's ROUND_HALF_UP). -/
def qRound2 (x : ℚ) : ℚ :=
  if x < 0 then -(((⌊(-x) * 100 + 1/2⌋ : ℤ) : ℚ) / 100)
  else ((⌊x * 100 + 1/2⌋ : ℤ) : ℚ) / 100

/-- `tax_report._round_to_full_pln`: `Decimal(math.floor(value + Decimal("0.5")))`. -/
def roundToFullPln (value : ℚ) : ℚ :=
  ((⌊value + 1/2⌋ : ℤ) : ℚ)

/-- `POLISH_TAX_RATE = Decimal("0.19")` (same constant in `tax_report.py`
and `dividend_calc.py`). -/
def POLISH_TAX_RATE : ℚ := 19/100

/-! ## Calendar (from `nbp_client.py`)

Dates are proleptic-Gregorian ordinals: day 1 is 0001-01-01, which is a
Monday, exactly as in Python's `date.toordinal` / `date.weekday`. -/

/-- Gregorian leap-year rule. -/
def isLeapYear (y : Nat) : Bool :=
  (y % 4 == 0 && y % 100 != 0) || y % 400 == 0

/-- Number of days in year `y`. -/
def daysInYear (y : Nat) : Nat :=
  if isLeapYear y then 366 else 365

/-- Number of days in month `m` of year `y`. -/
def daysInMonth (y m : Nat) : Nat :=
  if m = 2 then (if isLeapYear y then 29 else 28)
  else if m = 4 ∨ m = 6 ∨ m = 9 ∨ m = 11 then 30
  else 31

/-- Days in the months of year `y` strictly before month `m`. -/
def daysBeforeMonth (y : Nat) : Nat → Nat
  | 0 => 0
  | 1 => 0
  | m + 1 => daysBeforeMonth y m + daysInMonth y m

/-- Days in all years strictly before year `y` (standard Gregorian count). -/
def daysBeforeYear (y : Nat) : Nat :=
  (365 * (y - 1) + (y - 1) / 4 + (y - 1) / 400) - (y - 1) / 100

/-- Ordinal of the calendar date `(y, m, d)` (as `date(y, m, d).toordinal()`). -/
def toOrdinal (y m d : Nat) : Nat :=
  daysBeforeYear y + daysBeforeMonth y m + d

/-- Peel whole years off a (1-based) day count, starting at year `y`. -/
def yearPeel : Nat → Nat → Nat → Nat × Nat
  | 0, y, n => (y, n)
  | fuel + 1, y, n =>
    if n ≤ daysInYear y then (y, n) else yearPeel fuel (y + 1) (n - daysInYear y)

/-- Year and (1-based) day-of-year of an ordinal. -/
def yearAndDayOf (n : Nat) : Nat × Nat := yearPeel n 1 n

/-- Year of an ordinal (`date.fromordinal(n).year`). -/
def yearOf (n : Nat) : Nat := (yearAndDayOf n).1

/-- Peel whole months off a (1-based) day-of-year, starting at month `m`. -/
def monthPeel (y : Nat) : Nat → Nat → Nat → Nat × Nat
  | 0, m, n => (m, n)
  | fuel + 1, m, n =>
    if n ≤ daysInMonth y m then (m, n) else monthPeel y fuel (m + 1) (n - daysInMonth y m)

/-- Calendar month and day of an ordinal. -/
def monthDayOf (n : Nat) : Nat × Nat :=
  let yd := yearAndDayOf n
  monthPeel yd.1 12 1 yd.2

/-- `_easter_date`: Easter Sunday of year `y` by the Anonymous Gregorian
algorithm, returned as (month, day).  Computed over `ℤ` with Euclidean
division, which agrees with Python's `//` and `%` for positive divisors. -/
def easterDate (y : Nat) : Nat × Nat :=
  let yz : ℤ := (y : ℤ)
  let a : ℤ := Int.emod yz 19
  let b : ℤ := Int.ediv yz 100
  let c : ℤ := Int.emod yz 100
  let d : ℤ := Int.ediv b 4
  let e : ℤ := Int.emod b 4
  let f : ℤ := Int.ediv (b + 8) 25
  let g : ℤ := Int.ediv (b - f + 1) 3
  let h : ℤ := Int.emod (19 * a + b - d - g + 15) 30
  let i : ℤ := Int.ediv c 4
  let k : ℤ := Int.emod c 4
  let l : ℤ := Int.emod (32 + 2 * e + 2 * i - h - k) 7
  let m : ℤ := Int.ediv (a + 11 * h + 22 * l) 451
  let month : ℤ := Int.ediv (h + l - 7 * m + 114) 31
  let day : ℤ := Int.emod (h + l - 7 * m + 114) 31 + 1
  (month.toNat, day.toNat)

/-- `FIXED_HOLIDAYS`: fixed-date Polish public holidays as (month, day). -/
def FIXED_HOLIDAYS : List (Nat × Nat) :=
  [(1, 1), (1, 6), (5, 1), (5, 3), (8, 15), (11, 1), (11, 11), (12, 25), (12, 26)]

/-- `_polish_holidays`: all Polish public holidays of year `y`, as ordinals. -/
def polishHolidays (y : Nat) : List Nat :=
  let fixed := FIXED_HOLIDAYS.map (fun p => toOrdinal y p.1 p.2)
  let em := easterDate y
  let easter := toOrdinal y em.1 em.2
  fixed ++ [easter, easter + 1, easter + 49, easter + 60]

/-- `is_polish_business_day`: not a weekend (Mon=0, ..., Sat=5, Sun=6) and
not a Polish public holiday. -/
def isPolishBusinessDay (n : Nat) : Bool :=
  (n - 1) % 7 < 5 && !((polishHolidays (yearOf n)).contains n)

/-- Search downward from `n - 1` for a Polish business day (helper for
`previousBusinessDay`; the fuel is the day count itself, so the search can
walk all the way down). -/
def prevBusinessDayAux : Nat → Nat
  | 0 => 0
  | n + 1 => if isPolishBusinessDay n then n else prevBusinessDayAux n

/-- `previous_business_day`: last Polish business day strictly before `d`.
(The Python loop never terminates when no business day exists below `d`;
that situation is unreachable for real dates, and the model returns 0.) -/
def previousBusinessDay (d : Nat) : Nat := prevBusinessDayAux d

/-! ## Data model (from `models.py`) -/

/-- `ActionType`. -/
inductive ActionType
  | buy
  | sell
  | dividend
  | taxWht
  | fee
  | corporateAction
deriving DecidableEq, Repr

/-- A `datetime.datetime`: day ordinal plus time of day, ordered
lexicographically (as Python datetimes are). -/
structure DateTime where
  day : Nat
  tod : Nat
deriving DecidableEq, Repr

/-- Python datetime ordering. -/
def DateTime.le (a b : DateTime) : Prop :=
  a.day < b.day ∨ (a.day = b.day ∧ a.tod ≤ b.tod)

instance (a b : DateTime) : Decidable (DateTime.le a b) := by
  unfold DateTime.le; infer_instance

/-- `datetime.year`. -/
def DateTime.year (t : DateTime) : Nat := yearOf t.day

/-- `UnifiedTransaction` (fields the modelled pipeline reads). -/
structure UnifiedTransaction where
  id : String
  symbol : String
  isin : Option String
  tradeDate : DateTime
  settlementDate : Nat
  action : ActionType
  quantity : ℚ
  price : ℚ
  currency : String
  commission : ℚ
  commissionCurrency : Option String
  nbpRate : Option ℚ
  nbpRateDate : Option Nat
  amountPln : Option ℚ
  commissionPln : Option ℚ
deriving DecidableEq, Repr

/-- `FifoMatch`. -/
structure FifoMatch where
  symbol : String
  quantity : ℚ
  buyDate : DateTime
  buySettlementDate : Nat
  buyPrice : ℚ
  buyCurrency : String
  buyCommission : ℚ
  buyNbpRate : ℚ
  buyCostPln : ℚ
  sellDate : DateTime
  sellSettlementDate : Nat
  sellPrice : ℚ
  sellCurrency : String
  sellCommission : ℚ
  sellNbpRate : ℚ
  sellRevenuePln : ℚ
  profitPln : ℚ
  isOrphan : Bool := false
  isShort : Bool := false
deriving DecidableEq, Repr

/-- `DividendResult`. -/
structure DividendResult where
  symbol : String
  isin : Option String
  country : Option String
  payDate : Nat
  currency : String
  grossAmount : ℚ
  grossAmountPln : ℚ
  nbpRate : ℚ
  whtAmount : ℚ
  whtAmountPln : ℚ
  whtNbpRate : ℚ
  polishTaxDue : ℚ
  taxToPayPoland : ℚ
deriving DecidableEq, Repr

/-- `CapitalGainsSummary`. -/
structure CapitalGainsSummary where
  revenuePln : ℚ
  costsPln : ℚ
  profitPln : ℚ
  taxDue : ℚ
  «matches» : List FifoMatch
deriving DecidableEq, Repr

/-- `DividendSummary`. -/
structure DividendSummary where
  totalGrossPln : ℚ
  totalWhtPln : ℚ
  totalPolishTaxDue : ℚ
  totalToPayPln : ℚ
  items : List DividendResult
deriving DecidableEq, Repr

/-- `CountryBreakdown`. -/
structure CountryBreakdown where
  countryCode : String
  countryName : String
  capitalGainsPln : ℚ
  dividendIncomePln : ℚ
  taxPaidAbroadPln : ℚ
deriving DecidableEq, Repr

/-- `OpenPosition`. -/
structure OpenPosition where
  symbol : String
  quantity : ℚ
  buyDate : Nat
  buyPrice : ℚ
  currency : String
  costPln : ℚ
  nbpRate : ℚ
deriving DecidableEq, Repr

/-- `ShortPosition` (declared in `models.py`; see claim C9). -/
structure ShortPosition where
  symbol : String
  quantity : ℚ
  sellDate : Nat
  sellPrice : ℚ
  currency : String
  revenuePln : ℚ
  nbpRate : ℚ
deriving DecidableEq, Repr

/-- `TaxReport` (the out-of-scope portfolio-analytics section is omitted). -/
structure TaxReport where
  taxYear : Nat
  capitalGains : CapitalGainsSummary
  dividends : DividendSummary
  pitZg : List CountryBreakdown
  openPositions : List OpenPosition
  openShortPositions : List ShortPosition
  warnings : List String
deriving DecidableEq, Repr

/-! ## Insertion-ordered association lists (Python dict / defaultdict) -/

/-- Lookup in an insertion-ordered association list. -/
def alookup {κ α : Type} [DecidableEq κ] : List (κ × α) → κ → Option α
  | [], _ => none
  | (k, v) :: rest, s => if k = s then some v else alookup rest s

/-- Update an insertion-ordered association list in place, appending the
entry at the end when the key is absent (Python dict insertion order). -/
def aupd {κ α : Type} [DecidableEq κ] : List (κ × α) → κ → α → List (κ × α)
  | [], s, v => [(s, v)]
  | (k, w) :: rest, s, v =>
    if k = s then (k, v) :: rest else (k, w) :: aupd rest s v

/-! ## FIFO matching engine (from `fifo_engine.py`) -/

namespace FifoEngine

/-- `BuyLot`. -/
structure BuyLot where
  transaction : Taxpilot.UnifiedTransaction
  remainingQty : ℚ
deriving DecidableEq, Repr

/-- `ShortLot`. -/
structure ShortLot where
  transaction : Taxpilot.UnifiedTransaction
  remainingQty : ℚ
deriving DecidableEq, Repr

/-- `FifoResult` (open positions keep the per-symbol dict's insertion order). -/
structure FifoResult where
  «matches» : List Taxpilot.FifoMatch
  warnings : List String
  openPositions : List (String × List BuyLot)
deriving DecidableEq, Repr

/-- `FifoEngine._create_match`. -/
def createMatch (symbol : String) (quantity : ℚ)
    (buyTx sellTx : UnifiedTransaction) (buyTotalQty sellTotalQty : ℚ) :
    FifoMatch :=
  let buyRate := buyTx.nbpRate.getD 1
  let sellRate := sellTx.nbpRate.getD 1
  let buyCommissionShare := qRound2 (buyTx.commission * quantity / buyTotalQty)
  let sellCommissionShare := qRound2 (sellTx.commission * quantity / sellTotalQty)
  let buyCostPln := qRound2 ((buyTx.price * quantity + buyCommissionShare) * buyRate)
  let sellRevenuePln := qRound2 ((sellTx.price * quantity - sellCommissionShare) * sellRate)
  { symbol := symbol
    quantity := quantity
    buyDate := buyTx.tradeDate
    buySettlementDate := buyTx.settlementDate
    buyPrice := buyTx.price
    buyCurrency := buyTx.currency
    buyCommission := buyCommissionShare
    buyNbpRate := buyRate
    buyCostPln := buyCostPln
    sellDate := sellTx.tradeDate
    sellSettlementDate := sellTx.settlementDate
    sellPrice := sellTx.price
    sellCurrency := sellTx.currency
    sellCommission := sellCommissionShare
    sellNbpRate := sellRate
    sellRevenuePln := sellRevenuePln
    profitPln := sellRevenuePln - buyCostPln }

/-- `FifoEngine._create_orphan_match`: revenue as usual, cost basis 0,
all buy-side fields zeroed, dates copied from the sell. -/
def createOrphanMatch (symbol : String) (quantity : ℚ)
    (sellTx : UnifiedTransaction) (sellTotalQty : ℚ) : FifoMatch :=
  let sellRate := sellTx.nbpRate.getD 1
  let sellCommissionShare := qRound2 (sellTx.commission * quantity / sellTotalQty)
  let sellRevenuePln := qRound2 ((sellTx.price * quantity - sellCommissionShare) * sellRate)
  { symbol := symbol
    quantity := quantity
    buyDate := sellTx.tradeDate
    buySettlementDate := sellTx.settlementDate
    buyPrice := 0
    buyCurrency := sellTx.currency
    buyCommission := 0
    buyNbpRate := 0
    buyCostPln := 0
    sellDate := sellTx.tradeDate
    sellSettlementDate := sellTx.settlementDate
    sellPrice := sellTx.price
    sellCurrency := sellTx.currency
    sellCommission := sellCommissionShare
    sellNbpRate := sellRate
    sellRevenuePln := sellRevenuePln
    profitPln := sellRevenuePln
    isOrphan := true }

/-- The orphan-sell warning appended together with each orphan match. -/
def orphanWarning (symbol : String) (qty : ℚ) (d : Nat) : String :=
  "BRAK KUPNA: Nie znaleziono zakupu dla " ++ symbol ++
    " (sprzedaz " ++ toString qty.num ++ "/" ++ toString qty.den ++
    " szt. dnia " ++ toString d ++
    "). Uwzgledniono z kosztem 0 PLN - wgraj pliki z wczesniejszych lat lub dodaj brakujace kupno recznie."

/-- The BUY branch's inner while loop: cover pending short lots, oldest
first, from the front of the short queue.  Returns the created matches, the
queue after consumption, and the unconsumed buy quantity. -/
def coverShorts (buyTx : UnifiedTransaction) :
    ℚ → List ShortLot → List FifoMatch × List ShortLot × ℚ
  | buyRemaining, [] => ([], [], buyRemaining)
  | buyRemaining, lot :: rest =>
    if 0 < buyRemaining then
      let matchedQty := min buyRemaining lot.remainingQty
      let m := { createMatch buyTx.symbol matchedQty buyTx lot.transaction
                    buyTx.quantity lot.transaction.quantity with isShort := true }
      let newRem := lot.remainingQty - matchedQty
      if newRem ≤ 0 then
        let r := coverShorts buyTx (buyRemaining - matchedQty) rest
        (m :: r.1, r.2.1, r.2.2)
      else
        -- here matchedQty = buyRemaining, so the Python loop exits next turn
        ([m], { lot with remainingQty := newRem } :: rest, buyRemaining - matchedQty)
    else ([], lot :: rest, buyRemaining)

/-- The SELL branch's while loop: consume buy lots, oldest first. -/
def sellFromBuys (sellTx : UnifiedTransaction) :
    ℚ → List BuyLot → List FifoMatch × List BuyLot × ℚ
  | sellRemaining, [] => ([], [], sellRemaining)
  | sellRemaining, lot :: rest =>
    if 0 < sellRemaining then
      let matchedQty := min sellRemaining lot.remainingQty
      let m := createMatch sellTx.symbol matchedQty lot.transaction sellTx
                  lot.transaction.quantity sellTx.quantity
      let newRem := lot.remainingQty - matchedQty
      if newRem ≤ 0 then
        let r := sellFromBuys sellTx (sellRemaining - matchedQty) rest
        (m :: r.1, r.2.1, r.2.2)
      else
        ([m], { lot with remainingQty := newRem } :: rest, sellRemaining - matchedQty)
    else ([], lot :: rest, sellRemaining)

/-- Mutable engine state: per-symbol buy queues, per-symbol short queues,
and the accumulated matches. -/
structure EngineState where
  buyQueues : List (String × List BuyLot)
  shortQueues : List (String × List ShortLot)
  «matches» : List Taxpilot.FifoMatch
deriving Repr

/-- The BUY branch of the main loop: cover pending shorts first
(`short_queues.get(tx.symbol)` does not create an entry), then queue any
remaining buy quantity. -/
def stepBuy (st : EngineState) (tx : UnifiedTransaction) : EngineState :=
  let sq := (alookup st.shortQueues tx.symbol).getD []
  let r := coverShorts tx tx.quantity sq
  let shortQueues :=
    match alookup st.shortQueues tx.symbol with
    | some _ => aupd st.shortQueues tx.symbol r.2.1
    | none => st.shortQueues
  let buyQueues :=
    if 0 < r.2.2 then
      aupd st.buyQueues tx.symbol
        ((alookup st.buyQueues tx.symbol).getD [] ++
          [{ transaction := tx, remainingQty := r.2.2 }])
    else st.buyQueues
  { buyQueues := buyQueues, shortQueues := shortQueues,
    «matches» := st.matches ++ r.1 }

/-- The SELL branch of the main loop: consume buy lots oldest-first
(`buy_queues.get(tx.symbol, deque())`: a fresh deque is discarded), then
queue any remaining sell quantity as a short lot. -/
def stepSell (st : EngineState) (tx : UnifiedTransaction) : EngineState :=
  let bq := (alookup st.buyQueues tx.symbol).getD []
  let r := sellFromBuys tx tx.quantity bq
  let buyQueues :=
    match alookup st.buyQueues tx.symbol with
    | some _ => aupd st.buyQueues tx.symbol r.2.1
    | none => st.buyQueues
  let shortQueues :=
    if 0 < r.2.2 then
      aupd st.shortQueues tx.symbol
        ((alookup st.shortQueues tx.symbol).getD [] ++
          [{ transaction := tx, remainingQty := r.2.2 }])
    else st.shortQueues
  { buyQueues := buyQueues, shortQueues := shortQueues,
    «matches» := st.matches ++ r.1 }

/-- One iteration of the main transaction loop. -/
def stepTx (st : EngineState) (tx : UnifiedTransaction) : EngineState :=
  match tx.action with
  | .buy => stepBuy st tx
  | .sell => stepSell st tx
  | _ => st

/-- Filter to BUY/SELL then stable-sort by trade date (the Python
`list.sort` is stable, embedded as insertion sort). -/
def sortedBuysSells (transactions : List UnifiedTransaction) :
    List UnifiedTransaction :=
  (transactions.filter fun t =>
      match t.action with
      | .buy => true
      | .sell => true
      | _ => false).insertionSort
    (fun a b => DateTime.le a.tradeDate b.tradeDate)

/-- Final engine state after folding the whole (sorted) transaction list. -/
def finalState (transactions : List UnifiedTransaction) : EngineState :=
  (sortedBuysSells transactions).foldl stepTx ⟨[], [], []⟩

/-- The short-queue entries still carrying positive remaining quantity
(symbol paired with the leftover lot, in queue-dict insertion order). -/
def leftoversOf (sq : List (String × List ShortLot)) : List (String × ShortLot) :=
  sq.flatMap fun p =>
    (p.2.filter fun lot => decide (0 < lot.remainingQty)).map fun lot => (p.1, lot)

/-- The leftover short lots at the end of processing. -/
def finalShortLeftovers (transactions : List UnifiedTransaction) :
    List (String × ShortLot) :=
  leftoversOf (finalState transactions).shortQueues

/-- The final open-positions sweep: per symbol, the buy lots that still
carry positive remaining quantity; symbols with none are dropped. -/
def openPositionsOf (bq : List (String × List BuyLot)) :
    List (String × List BuyLot) :=
  bq.filterMap fun p =>
    let remaining := p.2.filter fun lot => decide (0 < lot.remainingQty)
    if remaining.isEmpty then none else some (p.1, remaining)

/-- `FifoEngine.process`. -/
def process (transactions : List UnifiedTransaction) : FifoResult :=
  let st := finalState transactions
  let leftovers := finalShortLeftovers transactions
  let orphanMatches := leftovers.map fun p =>
    createOrphanMatch p.1 p.2.remainingQty p.2.transaction p.2.transaction.quantity
  let orphanWarnings := leftovers.map fun p =>
    orphanWarning p.1 p.2.remainingQty p.2.transaction.tradeDate.day
  { «matches» := st.matches ++ orphanMatches
    warnings := orphanWarnings
    openPositions := openPositionsOf st.buyQueues }

end FifoEngine

/-! ## Deduplicator (`main._dedup_transactions`) -/

/-- Pass 1: drop every record whose id has already been seen. -/
def pass1Aux (seen : List String) : List UnifiedTransaction → List UnifiedTransaction
  | [] => []
  | tx :: rest =>
    if tx.id ∈ seen then pass1Aux seen rest
    else tx :: pass1Aux (tx.id :: seen) rest

/-- Grouping key of the aggregate passes: (symbol, trade datetime, action,
price), where pass 3 omits the price (modelled with `none`). -/
abbrev DedupKey : Type := String × DateTime × ActionType × Option ℚ

/-- Build the per-key group lists of (index, quantity) pairs over the
enumerated BUY/SELL records; groups and group members keep first-insertion
order, as Python dicts and appended lists do. -/
def buildGroups (txs : List UnifiedTransaction) (priced : Bool) :
    List (DedupKey × List (Nat × ℚ)) :=
  txs.enum.foldl
    (fun groups p =>
      match p.2.action with
      | .buy =>
        let k : DedupKey := (p.2.symbol, p.2.tradeDate, p.2.action,
          if priced then some p.2.price else none)
        aupd groups k ((alookup groups k).getD [] ++ [(p.1, p.2.quantity)])
      | .sell =>
        let k : DedupKey := (p.2.symbol, p.2.tradeDate, p.2.action,
          if priced then some p.2.price else none)
        aupd groups k ((alookup groups k).getD [] ++ [(p.1, p.2.quantity)])
      | _ => groups)
    []

/-- For one group: stable-sort quantities descending; when the quantities of
the rest sum exactly to the largest, the largest row is the broker aggregate
and its index is marked for removal. -/
def aggregateRemovals (groups : List (DedupKey × List (Nat × ℚ))) : List Nat :=
  groups.filterMap fun p =>
    if p.2.length ≤ 1 then none
    else
      match p.2.insertionSort (fun a b => b.2 ≤ a.2) with
      | [] => none
      | largest :: rest =>
        if (rest.map fun q => q.2).sum = largest.2 then some largest.1 else none

/-- Walk the enumerated list, dropping the removed indices. -/
def removeIdxAux (removed : List Nat) : Nat → List UnifiedTransaction → List UnifiedTransaction
  | _, [] => []
  | i, tx :: rest =>
    if i ∈ removed then removeIdxAux removed (i + 1) rest
    else tx :: removeIdxAux removed (i + 1) rest

/-- Rebuild the list without the removed indices
(`[tx for i, tx in enumerate(deduped) if i not in remove_indices]`). -/
def removeIdx (txs : List UnifiedTransaction) (removed : List Nat) :
    List UnifiedTransaction :=
  removeIdxAux removed 0 txs

/-- `_dedup_transactions`: exact-id pass, then the same-price aggregate
pass, then the blended-price aggregate pass. -/
def dedupTransactions (transactions : List UnifiedTransaction) :
    List UnifiedTransaction :=
  if transactions.isEmpty then transactions
  else
    let deduped1 := pass1Aux [] transactions
    let deduped2 := removeIdx deduped1 (aggregateRemovals (buildGroups deduped1 true))
    removeIdx deduped2 (aggregateRemovals (buildGroups deduped2 false))

/-! ## NBP rate client (`nbp_client.NbpClient.get_rate`)

The SQLite cache and the HTTP API are fixed oracles
`(currency, ordinal date) → Option mid-rate`; a raised `ValueError` is an
`Except.error`. -/

/-- `str.upper` (ASCII; currency codes and ISIN prefixes are ASCII). -/
def strUpper (s : String) : String := String.mk (s.data.map Char.toUpper)

/-- The message of the `ValueError` raised when ten backward attempts fail. -/
def rateErrorMsg (currency : String) (forDate candidate : Nat) : String :=
  "Could not find NBP rate for " ++ currency ++ " near " ++ toString forDate ++
    " after searching back to " ++ toString candidate

namespace NbpClient

/-- The bounded backward search over the API: fetch the candidate date, on
miss step to the previous business day, at most `fuel` (= 10) fetches. -/
def apiSearch (api : String → Nat → Option ℚ) (currency : String)
    (forDate : Nat) : Nat → Nat → Except String (ℚ × Nat)
  | candidate, 0 => .error (rateErrorMsg currency forDate candidate)
  | candidate, fuel + 1 =>
    match api currency candidate with
    | some rate => .ok (rate, candidate)
    | none => apiSearch api currency forDate (previousBusinessDay candidate) fuel

/-- `NbpClient.get_rate`: PLN short-circuits to rate 1 on `for_date` itself;
otherwise target the business day strictly before `for_date`, try the cache,
then search the API backwards up to 10 attempts. -/
def getRate (cache api : String → Nat → Option ℚ) (currency : String)
    (forDate : Nat) : Except String (ℚ × Nat) :=
  let c := strUpper currency
  if c = "PLN" then .ok (1, forDate)
  else
    let target := previousBusinessDay forDate
    match cache c target with
    | some rate => .ok (rate, target)
    | none => apiSearch api c forDate target 10

end NbpClient

/-! ## Dividend tax calculator (`dividend_calc.py`) -/

/-- `_country_from_isin` (shared by `dividend_calc.py` and `tax_report.py`). -/
def countryFromIsin (isin : Option String) : Option String :=
  match isin with
  | none => none
  | some s =>
    if 2 ≤ s.length then
      if (s.take 2).data.all Char.isAlpha then some (strUpper (s.take 2))
      else none
    else none

/-- Absolute distance in days between two date ordinals. -/
def dayDist (a b : Nat) : Nat := max a b - min a b

namespace DividendCalculator

/-- `DividendCalculator._find_matching_wht`: same-symbol candidates; first
exact same-calendar-day hit wins; otherwise the stable-sorted closest by
absolute day distance, accepted only within 5 days. -/
def findMatchingWht (dividend : UnifiedTransaction)
    (whtEntries : List UnifiedTransaction) : Option UnifiedTransaction :=
  let candidates := whtEntries.filter fun w => decide (w.symbol = dividend.symbol)
  match candidates with
  | [] => none
  | _ :: _ =>
    match candidates.find? (fun w => decide (w.tradeDate.day = dividend.tradeDate.day)) with
    | some w => some w
    | none =>
      match candidates.insertionSort (fun a b =>
          dayDist a.tradeDate.day dividend.tradeDate.day ≤
            dayDist b.tradeDate.day dividend.tradeDate.day) with
      | [] => none
      | best :: _ =>
        if dayDist best.tradeDate.day dividend.tradeDate.day ≤ 5 then some best
        else none

/-- The per-dividend body of `DividendCalculator.calculate`. -/
def divResultFor (whtEntries : List UnifiedTransaction)
    (div : UnifiedTransaction) : DividendResult :=
  let wht := findMatchingWht div whtEntries
  let divRate := div.nbpRate.getD 1
  let grossPln := qRound2 (div.quantity * div.price * divRate)
  let w : ℚ × ℚ × ℚ :=
    match wht with
    | some whtTx =>
      let whtRate := whtTx.nbpRate.getD 1
      let whtAmount := |whtTx.quantity * whtTx.price|
      (whtAmount, qRound2 (whtAmount * whtRate), whtRate)
    | none => (0, 0, 1)
  let polishTax := qRound2 (grossPln * POLISH_TAX_RATE)
  let toPay := max 0 (polishTax - w.2.1)
  { symbol := div.symbol
    isin := div.isin
    country := countryFromIsin div.isin
    payDate := div.tradeDate.day
    currency := div.currency
    grossAmount := div.quantity * div.price
    grossAmountPln := grossPln
    nbpRate := divRate
    whtAmount := w.1
    whtAmountPln := w.2.1
    whtNbpRate := w.2.2
    polishTaxDue := polishTax
    taxToPayPoland := toPay }

/-- `DividendCalculator.calculate`. -/
def calculate (transactions : List UnifiedTransaction) : List DividendResult :=
  let dividends := transactions.filter fun t => decide (t.action = ActionType.dividend)
  let whtEntries := transactions.filter fun t => decide (t.action = ActionType.taxWht)
  dividends.map (divResultFor whtEntries)

end DividendCalculator

/-! ## Tax report generator (`tax_report.py`)

The pre-fetch of yearly rate tables only populates the cache oracle and its
failure warnings are network-only; the out-of-scope portfolio-analytics
section (step 8) only fills the omitted `portfolio` field.  Both are left
out of the model. -/

/-- `COUNTRY_NAMES`. -/
def COUNTRY_NAMES : List (String × String) :=
  [("US", "Stany Zjednoczone"), ("IE", "Irlandia"), ("LU", "Luksemburg"),
   ("DE", "Niemcy"), ("GB", "Wielka Brytania"), ("NL", "Holandia"),
   ("FR", "Francja"), ("CH", "Szwajcaria"), ("JP", "Japonia"),
   ("CA", "Kanada"), ("AU", "Australia"), ("HK", "Hongkong"),
   ("KY", "Kajmany"), ("BM", "Bermudy"), ("JE", "Jersey"),
   ("SE", "Szwecja"), ("DK", "Dania"), ("FI", "Finlandia"),
   ("NO", "Norwegia"), ("ES", "Hiszpania"), ("IT", "Wlochy"),
   ("BE", "Belgia"), ("AT", "Austria"), ("PT", "Portugalia"),
   ("PL", "Polska"), ("CZ", "Czechy"), ("IL", "Izrael"),
   ("SG", "Singapur"), ("TW", "Tajwan"), ("KR", "Korea Poludniowa"),
   ("BR", "Brazylia"), ("MX", "Meksyk"), ("IN", "Indie"), ("CN", "Chiny")]

/-- The exchange-suffix table of `_guess_country_from_symbol`. -/
def exchangeToCountry : List (String × String) :=
  [("DE", "DE"), ("L", "GB"), ("AS", "NL"), ("PA", "FR"), ("MI", "IT"),
   ("MC", "ES"), ("SW", "CH"), ("TO", "CA"), ("AX", "AU"), ("HK", "HK"),
   ("T", "JP"), ("SS", "SE"), ("CO", "DK"), ("HE", "FI"), ("OL", "NO"),
   ("WA", "PL")]

/-- `TaxReportGenerator._guess_country_from_symbol`. -/
def guessCountryFromSymbol (symbol : String) : String :=
  if symbol.contains '.' then
    let suffix := strUpper ((symbol.splitOn ".").getLastD "")
    (alookup exchangeToCountry suffix).getD suffix
  else "US"

/-- `TaxReportGenerator._build_country_breakdown`.  The per-country record
is (capital gains, dividend income, tax paid abroad). -/
def buildCountryBreakdown (yearMatches : List FifoMatch)
    (divResults : List DividendResult) : List CountryBreakdown :=
  let afterMatches := yearMatches.foldl
    (fun acc m =>
      let country := guessCountryFromSymbol m.symbol
      if m.profitPln ≠ 0 then
        let cur := (alookup acc country).getD ((0 : ℚ), (0 : ℚ), (0 : ℚ))
        aupd acc country (cur.1 + m.profitPln, cur.2.1, cur.2.2)
      else acc)
    []
  let afterDivs := divResults.foldl
    (fun acc dv =>
      let country := dv.country.getD "XX"
      let cur := (alookup acc country).getD ((0 : ℚ), (0 : ℚ), (0 : ℚ))
      aupd acc country (cur.1, cur.2.1 + dv.grossAmountPln, cur.2.2 + dv.whtAmountPln))
    afterMatches
  (afterDivs.insertionSort (fun a b => a.1 ≤ b.1)).map fun p =>
    { countryCode := p.1
      countryName := (alookup COUNTRY_NAMES p.1).getD p.1
      capitalGainsPln := qRound2 p.2.1
      dividendIncomePln := qRound2 p.2.2.1
      taxPaidAbroadPln := qRound2 p.2.2.2 }

/-- The warning emitted when a rate lookup fails during enrichment. -/
def enrichWarningMsg (symbol : String) (settlement : Nat) (e : String) : String :=
  "Blad kursu NBP dla " ++ symbol ++ " na dzien " ++ toString settlement ++ ": " ++ e

/-- `TaxReportGenerator._enrich_nbp_rates`, one transaction: populate
`nbp_rate`, `nbp_rate_date`, `amount_pln` and `commission_pln`; on a failed
lookup fall back to rate 1 with a warning. -/
def enrichTx (cache api : String → Nat → Option ℚ) (tx : UnifiedTransaction) :
    UnifiedTransaction × List String :=
  if strUpper tx.currency = "PLN" then
    ({ tx with nbpRate := some 1
               nbpRateDate := some tx.settlementDate
               amountPln := some (qRound2 (tx.price * tx.quantity))
               commissionPln := some (qRound2 tx.commission) }, [])
  else
    match NbpClient.getRate cache api tx.currency tx.settlementDate with
    | .error e =>
      ({ tx with nbpRate := some 1
                 amountPln := some (qRound2 (tx.price * tx.quantity)) },
       [enrichWarningMsg tx.symbol tx.settlementDate e])
    | .ok rd =>
      let base := { tx with nbpRate := some rd.1
                            nbpRateDate := some rd.2
                            amountPln := some (qRound2 (tx.price * tx.quantity * rd.1)) }
      let commCurrency := tx.commissionCurrency.getD tx.currency
      if strUpper commCurrency = strUpper tx.currency then
        ({ base with commissionPln := some (qRound2 (tx.commission * rd.1)) }, [])
      else if strUpper commCurrency = "PLN" then
        ({ base with commissionPln := some tx.commission }, [])
      else
        match NbpClient.getRate cache api commCurrency tx.settlementDate with
        | .ok cr =>
          ({ base with commissionPln := some (qRound2 (tx.commission * cr.1)) }, [])
        | .error e =>
          -- the second lookup's ValueError lands in the same `except`:
          -- rate and amount are overwritten, the already-written
          -- nbp_rate_date survives, commission_pln stays unset
          ({ base with nbpRate := some 1
                       amountPln := some (qRound2 (tx.price * tx.quantity)) },
           [enrichWarningMsg tx.symbol tx.settlementDate e])

/-- Enrich every transaction, collecting the warnings in order. -/
def enrich (cache api : String → Nat → Option ℚ)
    (txs : List UnifiedTransaction) : List UnifiedTransaction × List String :=
  let pairs := txs.map (enrichTx cache api)
  (pairs.map Prod.fst, (pairs.map Prod.snd).flatten)

/-- The FIFO engine run of `generate`: all enriched BUY/SELL records across
all years. -/
def fifoOf (cache api : String → Nat → Option ℚ)
    (txs : List UnifiedTransaction) : FifoEngine.FifoResult :=
  FifoEngine.process ((enrich cache api txs).1.filter fun t =>
    match t.action with
    | .buy => true
    | .sell => true
    | _ => false)

/-- The tax-year filter of `generate`: ordinary matches by sell year, short
matches by covering-buy year. -/
def yearMatchesOf (cache api : String → Nat → Option ℚ)
    (txs : List UnifiedTransaction) (taxYear : Nat) : List FifoMatch :=
  (fifoOf cache api txs).matches.filter fun m =>
    decide ((m.isShort = true ∧ m.buyDate.year = taxYear) ∨
            (m.isShort = false ∧ m.sellDate.year = taxYear))

/-- Capital-gains profit of the requested year before loss carryforward. -/
def grossYearProfit (cache api : String → Nat → Option ℚ)
    (txs : List UnifiedTransaction) (taxYear : Nat) : ℚ :=
  ((yearMatchesOf cache api txs taxYear).map FifoMatch.sellRevenuePln).sum -
    ((yearMatchesOf cache api txs taxYear).map FifoMatch.buyCostPln).sum

/-- The note recorded when prior-year losses are deducted. -/
def lossNote (actualDeduction priorYearLosses : ℚ) : String :=
  "Odliczono strate z lat ubieglych: " ++ toString actualDeduction.num ++ "/" ++
    toString actualDeduction.den ++ " PLN (50% z " ++
    toString priorYearLosses.num ++ "/" ++ toString priorYearLosses.den ++ " PLN)"

/-- The prior-year-loss step of `generate`: when a positive loss carry is
supplied and the profit is positive, deduct half the carry (rounded to the
minor unit) capped at the profit, and record a note. -/
def applyPriorLosses (profit : ℚ) (priorYearLosses : Option ℚ) :
    ℚ × List String :=
  match priorYearLosses with
  | some losses =>
    if 0 < losses ∧ 0 < profit then
      let maxDeduction := qRound2 (losses * (1/2))
      let actualDeduction := min maxDeduction profit
      (profit - actualDeduction, [lossNote actualDeduction losses])
    else (profit, [])
  | none => (profit, [])

/-- The warnings accumulated before the loss-carryforward step: enrichment
warnings then engine warnings. -/
def preLossWarnings (cache api : String → Nat → Option ℚ)
    (txs : List UnifiedTransaction) : List String :=
  (enrich cache api txs).2 ++ (fifoOf cache api txs).warnings

/-- `TaxReportGenerator.generate`. -/
def generate (cache api : String → Nat → Option ℚ)
    (transactions : List UnifiedTransaction) (taxYear : Nat)
    (priorYearLosses : Option ℚ) : TaxReport :=
  let txs := (enrich cache api transactions).1
  let yearDivs := txs.filter fun t =>
    decide ((t.action = ActionType.dividend ∨ t.action = ActionType.taxWht) ∧
            t.tradeDate.year = taxYear)
  let fifoResult := fifoOf cache api transactions
  let yearMatches := yearMatchesOf cache api transactions taxYear
  let totalRevenue := (yearMatches.map FifoMatch.sellRevenuePln).sum
  let totalCosts := (yearMatches.map FifoMatch.buyCostPln).sum
  let pr := applyPriorLosses (totalRevenue - totalCosts) priorYearLosses
  let taxDue := max 0 (roundToFullPln (pr.1 * POLISH_TAX_RATE))
  let capitalGains : CapitalGainsSummary :=
    { revenuePln := qRound2 totalRevenue
      costsPln := qRound2 totalCosts
      profitPln := qRound2 pr.1
      taxDue := taxDue
      «matches» := yearMatches }
  let divResults := DividendCalculator.calculate yearDivs
  let dividends : DividendSummary :=
    { totalGrossPln := (divResults.map DividendResult.grossAmountPln).sum
      totalWhtPln := (divResults.map DividendResult.whtAmountPln).sum
      totalPolishTaxDue := (divResults.map DividendResult.polishTaxDue).sum
      totalToPayPln := (divResults.map DividendResult.taxToPayPoland).sum
      items := divResults }
  let openPos := fifoResult.openPositions.flatMap fun p =>
    p.2.map fun lot =>
      let rate := lot.transaction.nbpRate.getD 1
      { symbol := p.1
        quantity := lot.remainingQty
        buyDate := lot.transaction.tradeDate.day
        buyPrice := lot.transaction.price
        currency := lot.transaction.currency
        costPln := qRound2 (lot.transaction.price * lot.remainingQty * rate)
        nbpRate := rate }
  { taxYear := taxYear
    capitalGains := capitalGains
    dividends := dividends
    pitZg := buildCountryBreakdown yearMatches divResults
    openPositions := openPos
    openShortPositions := []
    warnings := preLossWarnings cache api transactions ++ pr.2 }

/-! ## Quantity aggregation (for the conservation property) -/

/-- Total remaining quantity of a buy-lot queue. -/
def qtySumB (l : List FifoEngine.BuyLot) : ℚ :=
  (l.map FifoEngine.BuyLot.remainingQty).sum

/-- Total remaining quantity of a short-lot queue. -/
def qtySumS (l : List FifoEngine.ShortLot) : ℚ :=
  (l.map FifoEngine.ShortLot.remainingQty).sum

/-- Total BUY quantity of symbol `s` in a transaction list. -/
def buyTotal (txs : List UnifiedTransaction) (s : String) : ℚ :=
  (txs.map fun t =>
    if t.action = ActionType.buy ∧ t.symbol = s then t.quantity else 0).sum

/-- Total SELL quantity of symbol `s` in a transaction list. -/
def sellTotal (txs : List UnifiedTransaction) (s : String) : ℚ :=
  (txs.map fun t =>
    if t.action = ActionType.sell ∧ t.symbol = s then t.quantity else 0).sum

/-- Total quantity of the non-orphan matches of symbol `s`. -/
def nonOrphanQty (ms : List FifoMatch) (s : String) : ℚ :=
  (ms.map fun m =>
    if m.symbol = s ∧ m.isOrphan = false then m.quantity else 0).sum

/-- Total quantity of the orphan matches of symbol `s`. -/
def orphanQty (ms : List FifoMatch) (s : String) : ℚ :=
  (ms.map fun m =>
    if m.symbol = s ∧ m.isOrphan = true then m.quantity else 0).sum

/-- Total quantity of a match list. -/
def matchQtySum (ms : List FifoMatch) : ℚ :=
  (ms.map FifoMatch.quantity).sum

/-- Remaining open-buy-lot quantity of symbol `s` in a FIFO result. -/
def openQty (r : FifoEngine.FifoResult) (s : String) : ℚ :=
  qtySumB ((alookup r.openPositions s).getD [])

/-- The loop invariant of the FIFO engine: per symbol, the processed BUY
quantity splits into non-orphan matched quantity plus the open buy-lot
remainder, the processed SELL quantity splits into non-orphan matched
quantity plus the open short-lot remainder; all queued lots have positive
remainder, the queue dicts have no duplicate symbols, and no loop match is
an orphan. -/
def EngineInvariant (processed : List UnifiedTransaction)
    (st : FifoEngine.EngineState) : Prop :=
  (∀ s, buyTotal processed s =
      nonOrphanQty st.matches s + qtySumB ((alookup st.buyQueues s).getD [])) ∧
  (∀ s, sellTotal processed s =
      nonOrphanQty st.matches s + qtySumS ((alookup st.shortQueues s).getD [])) ∧
  (∀ p ∈ st.buyQueues, ∀ l ∈ p.2, 0 < l.remainingQty) ∧
  (∀ p ∈ st.shortQueues, ∀ l ∈ p.2, 0 < l.remainingQty) ∧
  (st.buyQueues.map Prod.fst).Nodup ∧
  (st.shortQueues.map Prod.fst).Nodup ∧
  (∀ m ∈ st.matches, m.isOrphan = false)

/-! ## Concrete inputs used by witnesses and counterexamples -/

/-- A datetime at midnight of day ordinal `d`. -/
def dtOf (d : Nat) : DateTime := ⟨d, 0⟩

/-- A baseline PLN BUY transaction (day 396 is in year 2). -/
def baseTx : UnifiedTransaction :=
  { id := "x", symbol := "XYZ", isin := none, tradeDate := dtOf 396,
    settlementDate := 398, action := ActionType.buy, quantity := 1,
    price := 100, currency := "PLN", commission := 0,
    commissionCurrency := none, nbpRate := none, nbpRateDate := none,
    amountPln := none, commissionPln := none }

/-- Oracle with no data (every lookup misses). -/
def oracle0 : String → Nat → Option ℚ := fun _ _ => none

/-- Buy 1 XYZ at 100 PLN in year 2. -/
def tx6Buy : UnifiedTransaction := baseTx

/-- Sell 1 XYZ at 750 PLN later in year 2 (profit 650, 19% = 123.50). -/
def tx6Sell : UnifiedTransaction :=
  { baseTx with
    id := "s1"
    tradeDate := dtOf 400
    settlementDate := 402
    action := ActionType.sell
    price := 750 }

/-- A sell with no matching buy anywhere (an uncovered short). -/
def tx9Sell : UnifiedTransaction :=
  { baseTx with
    id := "s9"
    symbol := "ORP"
    tradeDate := dtOf 400
    settlementDate := 402
    action := ActionType.sell
    price := 50 }

/-- Five same-symbol same-datetime BUY rows: four granular fills
(10 + 3 + 2 + 1 at price 1, with 3 + 2 + 1 = headline of a sub-aggregate)
and one row of quantity 4 at price 2, so that 4 + 3 + 2 + 1 = 10. -/
def ex2 : List UnifiedTransaction :=
  [{ baseTx with id := "a0", quantity := 10, price := 1 },
   { baseTx with id := "a1", quantity := 3, price := 1 },
   { baseTx with id := "a2", quantity := 2, price := 1 },
   { baseTx with id := "a3", quantity := 1, price := 1 },
   { baseTx with id := "a4", quantity := 4, price := 2 }]

/-- Two dividends of the same symbol three days apart. -/
def ex10Div1 : UnifiedTransaction :=
  { baseTx with
    id := "d1"
    symbol := "DIV"
    tradeDate := dtOf 500
    settlementDate := 500
    action := ActionType.dividend
    quantity := 1
    price := 100 }

/-- Second dividend of the same symbol. -/
def ex10Div2 : UnifiedTransaction :=
  { ex10Div1 with
    id := "d2"
    tradeDate := dtOf 503
    settlementDate := 503 }

/-- One withholding-tax record within 5 days of both dividends. -/
def ex10Wht : UnifiedTransaction :=
  { ex10Div1 with
    id := "w1"
    tradeDate := dtOf 501
    settlementDate := 501
    action := ActionType.taxWht
    price := 10 }

/-- The claim-C10 input: two dividends, one shared withholding record. -/
def ex10 : List UnifiedTransaction := [ex10Div1, ex10Div2, ex10Wht]

/-- A withholding record on the same calendar day as `ex10Div1`. -/
def ex8Wht : UnifiedTransaction :=
  { ex10Wht with
    id := "w8"
    tradeDate := dtOf 500
    settlementDate := 500 }

/-! # Theorems -/

/-! ## Business-day search -/

theorem prevBusinessDayAux_le (d : Nat) : prevBusinessDayAux d ≤ d := by
  induction d with
  | zero => exact Nat.le_refl 0
  | succ n ih =>
    simp only [prevBusinessDayAux]
    split
    · exact Nat.le_succ n
    · exact Nat.le_trans ih (Nat.le_succ n)

theorem prevBusinessDayAux_lt (d : Nat) (h : 0 < d) : prevBusinessDayAux d < d := by
  cases d with
  | zero => exact absurd h (Nat.lt_irrefl 0)
  | succ n =>
    simp only [prevBusinessDayAux]
    split
    · exact Nat.lt_succ_self n
    · exact Nat.lt_succ_of_le (prevBusinessDayAux_le n)

theorem previousBusinessDay_le (d : Nat) : previousBusinessDay d ≤ d :=
  prevBusinessDayAux_le d

theorem previousBusinessDay_lt (d : Nat) (h : 0 < d) : previousBusinessDay d < d :=
  prevBusinessDayAux_lt d h

theorem apiSearch_ok_le (api : String → Nat → Option ℚ) (c : String)
    (fd : Nat) :
    ∀ fuel cand r d', NbpClient.apiSearch api c fd cand fuel = Except.ok (r, d') →
      d' ≤ cand := by
  intro fuel
  induction fuel with
  | zero => intro cand r d' h; exact absurd h (by simp [NbpClient.apiSearch])
  | succ n ih =>
    intro cand r d' h
    simp only [NbpClient.apiSearch] at h
    cases hapi : api c cand with
    | some rate =>
      rw [hapi] at h
      cases h
      exact Nat.le_refl _
    | none =>
      rw [hapi] at h
      exact Nat.le_trans (ih _ _ _ h) (previousBusinessDay_le cand)

/-- C3, counterexample: for the reporting currency PLN, `get_rate` returns
rate 1 dated on `for_date` itself, not strictly before it. -/
theorem claim_C3_counterexample :
    NbpClient.getRate oracle0 oracle0 "PLN" 700 = Except.ok (1, 700) ∧
      ¬ (700 < 700) := by
  constructor
  · rfl
  · exact Nat.lt_irrefl 700

/-- C3 (amended): for every non-PLN currency and positive date `D`, a
successful `NbpClient.get_rate` returns a date strictly before `D`, and the
backward search's retry step strictly decreases every positive candidate
date.  (For PLN the code returns `(1, D)` itself, so the claim is restricted
to non-reporting currencies.) -/
theorem claim_C3_rate_search (cache api : String → Nat → Option ℚ)
    (currency : String) (D : Nat) (hc : strUpper currency ≠ "PLN")
    (hD : 0 < D) :
    (∀ r d', NbpClient.getRate cache api currency D = Except.ok (r, d') →
      d' < D) ∧
    (∀ c, 0 < c → previousBusinessDay c < c) := by
  refine ⟨?_, fun c h => previousBusinessDay_lt c h⟩
  intro r d' h
  have htarget : previousBusinessDay D < D := previousBusinessDay_lt D hD
  simp only [NbpClient.getRate] at h
  rw [if_neg hc] at h
  cases hcache : cache (strUpper currency) (previousBusinessDay D) with
  | some rate =>
    rw [hcache] at h
    cases h
    exact htarget
  | none =>
    rw [hcache] at h
    exact Nat.lt_of_le_of_lt (apiSearch_ok_le api (strUpper currency) D 10 _ r d' h) htarget

/-- C3 witness: at currency USD and date 700 both hypotheses hold and the
retry step decreases the concrete candidate 699. -/
theorem claim_C3_witness : previousBusinessDay 699 < 699 :=
  (claim_C3_rate_search oracle0 oracle0 "USD" 700 (by decide) (by decide)).2
    699 (by decide)

/-! ## Association-list lemmas -/

theorem alookup_aupd {κ α : Type} [DecidableEq κ] (l : List (κ × α))
    (k : κ) (v : α) (k' : κ) :
    alookup (aupd l k v) k' = if k' = k then some v else alookup l k' := by
  induction l with
  | nil =>
    by_cases h : k' = k
    · subst h; simp [aupd, alookup]
    · simp [aupd, alookup, h, Ne.symm h]
  | cons hd tl ih =>
    by_cases hk : hd.1 = k
    · simp only [aupd, hk, if_pos]
      by_cases h : k' = k
      · subst h; simp [alookup, hk]
      · simp [alookup, h, hk, Ne.symm h]
    · simp only [aupd, hk, if_neg, not_false_iff]
      by_cases h : hd.1 = k'
      · have hne : ¬ k' = k := fun he => hk (h.trans he)
        simp [alookup, h, hne]
      · simp [alookup, h, ih]

theorem alookup_mem {κ α : Type} [DecidableEq κ] {l : List (κ × α)} {k : κ}
    {v : α} (h : alookup l k = some v) : (k, v) ∈ l := by
  induction l with
  | nil => exact absurd h (by simp [alookup])
  | cons hd tl ih =>
    by_cases hk : hd.1 = k
    · simp only [alookup, hk, if_pos] at h
      cases h
      subst hk
      simp
    · simp only [alookup, hk, if_neg, not_false_iff] at h
      exact List.mem_cons_of_mem hd (ih h)

theorem alookup_none_of_not_mem_keys {κ α : Type} [DecidableEq κ]
    {l : List (κ × α)} {k : κ} (h : k ∉ l.map Prod.fst) :
    alookup l k = none := by
  induction l with
  | nil => rfl
  | cons hd tl ih =>
    simp only [List.map_cons, List.mem_cons, not_or] at h
    simp only [alookup]
    rw [if_neg (fun he => h.1 he.symm)]
    exact ih h.2

theorem aupd_mem {κ α : Type} [DecidableEq κ] {l : List (κ × α)} {k : κ}
    {v : α} {p : κ × α} (h : p ∈ aupd l k v) : p = (k, v) ∨ p ∈ l := by
  induction l with
  | nil => simpa [aupd] using h
  | cons hd tl ih =>
    by_cases hk : hd.1 = k
    · rw [aupd, if_pos hk] at h
      rcases List.mem_cons.mp h with h | h
      · left; rw [h, hk]
      · right; exact List.mem_cons_of_mem hd h
    · rw [aupd, if_neg hk] at h
      rcases List.mem_cons.mp h with h | h
      · right; exact h ▸ List.mem_cons_self hd tl
      · rcases ih h with h | h
        · left; exact h
        · right; exact List.mem_cons_of_mem hd h

theorem aupd_keys {κ α : Type} [DecidableEq κ] (l : List (κ × α)) (k : κ)
    (v : α) :
    (aupd l k v).map Prod.fst =
      if k ∈ l.map Prod.fst then l.map Prod.fst else l.map Prod.fst ++ [k] := by
  induction l with
  | nil => simp [aupd]
  | cons hd tl ih =>
    by_cases hk : hd.1 = k
    · simp [aupd, hk]
    · have hk' : ¬ k = hd.1 := fun he => hk he.symm
      simp only [aupd, hk, if_neg, not_false_iff, List.map_cons, ih,
        List.mem_cons, hk', false_or]
      split <;> simp

theorem aupd_keys_nodup {κ α : Type} [DecidableEq κ] {l : List (κ × α)}
    (h : (l.map Prod.fst).Nodup) (k : κ) (v : α) :
    ((aupd l k v).map Prod.fst).Nodup := by
  rw [aupd_keys]
  split
  · exact h
  · next hk =>
    refine List.nodup_append.mpr ⟨h, List.nodup_singleton k, ?_⟩
    intro a ha hb
    rw [List.mem_singleton] at hb
    subst hb
    exact hk ha

/-! ## Evaluation facts for concrete inputs -/

theorem strUpper_PLN : strUpper "PLN" = "PLN" := by decide

theorem yearOf_396 : yearOf 396 = 2 := by decide

theorem yearOf_400 : yearOf 400 = 2 := by decide

/-! ## C5: tax-year attribution of matches -/

/-- C5: the capital-gains summary of `generate` contains a match iff it is
an engine match and either it is short and its covering-buy year is the tax
year, or it is not short and its sell year is the tax year. -/
theorem claim_C5_year_attribution
    (cache api : String → Nat → Option ℚ) (txs : List UnifiedTransaction)
    (year : Nat) (losses : Option ℚ) (m : FifoMatch) :
    m ∈ (generate cache api txs year losses).capitalGains.matches ↔
      (m ∈ (fifoOf cache api txs).matches ∧
        ((m.isShort = true ∧ m.buyDate.year = year) ∨
         (m.isShort = false ∧ m.sellDate.year = year))) := by
  simp [generate, yearMatchesOf, List.mem_filter]

/-! ## C6: statutory rounding of the capital-gains tax due -/

/-- C6: the capital-gains tax due equals the statutory flat rate times the
post-deduction profit, floored at zero and rounded to a whole PLN by
add-0.5-then-floor; in particular a profit of 650 (0.19 × 650 = 123.50)
yields a tax due of 124. -/
theorem claim_C6_tax_rounding :
    (∀ (cache api : String → Nat → Option ℚ) (txs : List UnifiedTransaction)
        (year : Nat) (losses : Option ℚ),
      (generate cache api txs year losses).capitalGains.taxDue =
        max 0 (((⌊POLISH_TAX_RATE *
          (applyPriorLosses (grossYearProfit cache api txs year) losses).1
            + 1/2⌋ : ℤ) : ℚ))) ∧
    (generate oracle0 oracle0 [tx6Buy, tx6Sell] 2 none).capitalGains.taxDue = 124 := by
  constructor
  · intro cache api txs year losses
    simp only [generate, roundToFullPln, grossYearProfit]
    rw [mul_comm]
  · norm_num [generate, yearMatchesOf, fifoOf, enrich, enrichTx, strUpper_PLN,
      FifoEngine.process, FifoEngine.finalState, FifoEngine.sortedBuysSells,
      FifoEngine.finalShortLeftovers, FifoEngine.leftoversOf,
      FifoEngine.openPositionsOf, FifoEngine.stepTx, FifoEngine.stepBuy,
      FifoEngine.stepSell, FifoEngine.coverShorts,
      FifoEngine.sellFromBuys, FifoEngine.createMatch, alookup, aupd,
      List.insertionSort, List.orderedInsert, DateTime.le, DateTime.year,
      yearOf_396, yearOf_400,
      applyPriorLosses, roundToFullPln, POLISH_TAX_RATE, qRound2,
      tx6Buy, tx6Sell, baseTx, dtOf]

/-! ## C9: open short positions in the report -/

/-- C9, counterexample: an input whose processing leaves an uncovered short
(the orphan match and its warning are present in the report) while the
report's open-short-positions list is empty — no `ShortPosition` record is
produced for it. -/
theorem claim_C9_counterexample :
    (generate oracle0 oracle0 [tx9Sell] 2 none).openShortPositions = [] ∧
    ((generate oracle0 oracle0 [tx9Sell] 2 none).capitalGains.matches.filter
      fun m => m.isOrphan).length = 1 ∧
    (generate oracle0 oracle0 [tx9Sell] 2 none).warnings.length = 1 := by
  refine ⟨rfl, ?_, ?_⟩ <;>
    norm_num [generate, yearMatchesOf, fifoOf, enrich, enrichTx, strUpper_PLN,
      preLossWarnings,
      FifoEngine.process, FifoEngine.finalState, FifoEngine.sortedBuysSells,
      FifoEngine.finalShortLeftovers, FifoEngine.leftoversOf,
      FifoEngine.openPositionsOf, FifoEngine.stepTx, FifoEngine.stepBuy,
      FifoEngine.stepSell, FifoEngine.coverShorts,
      FifoEngine.sellFromBuys, FifoEngine.createOrphanMatch, alookup, aupd,
      List.insertionSort, List.orderedInsert, DateTime.le, DateTime.year,
      yearOf_400, applyPriorLosses, qRound2, tx9Sell, baseTx, dtOf]

/-- C9 (amended): the engine emits uncovered shorts as orphan matches, not
`ShortPosition` records, and `generate` never populates the report's
open-short-positions list: it is `[]` for every input. -/
theorem claim_C9_amended (cache api : String → Nat → Option ℚ)
    (txs : List UnifiedTransaction) (year : Nat) (losses : Option ℚ) :
    (generate cache api txs year losses).openShortPositions = [] := rfl

/-! ## C10: a withholding record can be credited to several dividends -/

/-- C10: on an input with two distinct same-symbol dividends and a single
withholding record dated within 5 days of both, both dividend results carry
the same full nonzero converted withholding credit — matched records are
never consumed. -/
theorem claim_C10_shared_wht :
    (DividendCalculator.calculate ex10).map DividendResult.whtAmountPln = [10, 10] ∧
    (ex10.filter fun t => decide (t.action = ActionType.taxWht)).length = 1 ∧
    ((10 : ℚ) ≠ 0) ∧ dayDist 501 500 ≤ 5 ∧ dayDist 501 503 ≤ 5 := by
  refine ⟨?_, ?_, by norm_num, by norm_num [dayDist], by norm_num [dayDist]⟩
  · simp +decide [DividendCalculator.calculate, DividendCalculator.divResultFor,
      DividendCalculator.findMatchingWht, dayDist,
      List.insertionSort, List.orderedInsert,
      ex10, ex10Div1, ex10Div2, ex10Wht, baseTx, dtOf]
    norm_num [qRound2, POLISH_TAX_RATE]
  · simp +decide [ex10, ex10Div1, ex10Div2, ex10Wht, baseTx, dtOf]

/-! ## C2: deduplication -/

theorem pass1Aux_sublist (seen : List String) (l : List UnifiedTransaction) :
    (pass1Aux seen l).Sublist l := by
  induction l generalizing seen with
  | nil => exact List.Sublist.refl []
  | cons t ts ih =>
    simp only [pass1Aux]
    split
    · exact List.Sublist.cons t (ih seen)
    · exact List.Sublist.cons₂ t (ih _)

theorem removeIdxAux_sublist (removed : List Nat) :
    ∀ (l : List UnifiedTransaction) (i : Nat),
      (removeIdxAux removed i l).Sublist l := by
  intro l
  induction l with
  | nil => intro i; exact List.Sublist.refl []
  | cons t ts ih =>
    intro i
    simp only [removeIdxAux]
    split
    · exact List.Sublist.cons t (ih (i + 1))
    · exact List.Sublist.cons₂ t (ih (i + 1))

theorem removeIdx_sublist (txs : List UnifiedTransaction) (removed : List Nat) :
    (removeIdx txs removed).Sublist txs :=
  removeIdxAux_sublist removed txs 0

theorem dedupTransactions_sublist (txs : List UnifiedTransaction) :
    (dedupTransactions txs).Sublist txs := by
  unfold dedupTransactions
  split
  · exact List.Sublist.refl txs
  · exact ((removeIdx_sublist _ _).trans (removeIdx_sublist _ _)).trans
      (pass1Aux_sublist [] txs)

/-- C2, counterexample: on five same-symbol same-datetime BUY rows with
quantities 10, 3, 2, 1 at price 1 and quantity 4 at price 2, the first run's
blended-price pass removes the 10-row (4 + 3 + 2 + 1 = 10), after which a
second run's same-price pass removes the 3-row (2 + 1 = 3): deduplication
applied twice differs from applying it once. -/
theorem claim_C2_counterexample :
    dedupTransactions (dedupTransactions ex2) ≠ dedupTransactions ex2 := by
  have h4 : (dedupTransactions ex2).length = 4 := by
    norm_num +decide [dedupTransactions, pass1Aux, buildGroups, aggregateRemovals,
      removeIdx, removeIdxAux, alookup, aupd, List.insertionSort, List.orderedInsert,
      List.enum, List.enumFrom, List.filterMap_cons, ex2, baseTx, dtOf]
  have h3 : (dedupTransactions (dedupTransactions ex2)).length = 3 := by
    norm_num +decide [dedupTransactions, pass1Aux, buildGroups, aggregateRemovals,
      removeIdx, removeIdxAux, alookup, aupd, List.insertionSort, List.orderedInsert,
      List.enum, List.enumFrom, List.filterMap_cons, ex2, baseTx, dtOf]
  intro h
  rw [h, h4] at h3
  exact absurd h3 (by norm_num)

/-- C2 (amended): a second application of `_dedup_transactions` yields an
order-preserving sublist of the first application's output (each pass only
ever removes rows), but it is not the identity on that output: full
idempotence fails. -/
theorem claim_C2_dedup_sublist (txs : List UnifiedTransaction) :
    (dedupTransactions (dedupTransactions txs)).Sublist (dedupTransactions txs) :=
  dedupTransactions_sublist (dedupTransactions txs)

/-! ## C7: loss carryforward -/

/-- C7: with a positive prior-year loss carry `L`, when the year's profit is
positive `generate` deducts exactly `min(round2(L/2), profit)` and appends
the deduction note to the warnings; when the profit is not positive, or no
loss is supplied, the profit and the warnings are unchanged. -/
theorem claim_C7_loss_carryforward (cache api : String → Nat → Option ℚ)
    (txs : List UnifiedTransaction) (year : Nat) (L : ℚ) (hL : 0 < L) :
    (0 < grossYearProfit cache api txs year →
      (generate cache api txs year (some L)).capitalGains.profitPln =
        qRound2 (grossYearProfit cache api txs year -
          min (qRound2 (L * (1/2))) (grossYearProfit cache api txs year)) ∧
      (generate cache api txs year (some L)).warnings =
        preLossWarnings cache api txs ++
          [lossNote (min (qRound2 (L * (1/2))) (grossYearProfit cache api txs year)) L]) ∧
    (¬ 0 < grossYearProfit cache api txs year →
      (generate cache api txs year (some L)).capitalGains.profitPln =
        qRound2 (grossYearProfit cache api txs year) ∧
      (generate cache api txs year (some L)).warnings =
        preLossWarnings cache api txs) ∧
    ((generate cache api txs year none).capitalGains.profitPln =
        qRound2 (grossYearProfit cache api txs year) ∧
      (generate cache api txs year none).warnings =
        preLossWarnings cache api txs) := by
  refine ⟨fun hp => ?_, fun hp => ?_, ?_⟩
  · simp only [generate, applyPriorLosses, grossYearProfit] at hp ⊢
    rw [if_pos ⟨hL, hp⟩]
    constructor
    · rfl
    · rfl
  · simp only [generate, applyPriorLosses, grossYearProfit] at hp ⊢
    rw [if_neg (fun hc => hp hc.2)]
    constructor
    · rfl
    · simp
  · simp only [generate, applyPriorLosses, grossYearProfit]
    constructor
    · trivial
    · simp

/-- C7 witness: with loss carry 100 and concrete profit 650 the deduction is
50 and the reported profit is 600. -/
theorem claim_C7_witness :
    0 < (100 : ℚ) ∧
    (generate oracle0 oracle0 [tx6Buy, tx6Sell] 2 (some 100)).capitalGains.profitPln = 600 := by
  have hP : grossYearProfit oracle0 oracle0 [tx6Buy, tx6Sell] 2 = 650 := by
    norm_num +decide [grossYearProfit, yearMatchesOf, fifoOf, enrich, enrichTx,
      strUpper_PLN, FifoEngine.process, FifoEngine.finalState,
      FifoEngine.sortedBuysSells, FifoEngine.finalShortLeftovers, FifoEngine.leftoversOf,
      FifoEngine.openPositionsOf, FifoEngine.stepTx, FifoEngine.stepBuy,
      FifoEngine.stepSell, FifoEngine.coverShorts, FifoEngine.sellFromBuys,
      FifoEngine.createMatch, alookup, aupd, List.insertionSort,
      List.orderedInsert, DateTime.le, DateTime.year, yearOf_396, yearOf_400,
      qRound2, tx6Buy, tx6Sell, baseTx, dtOf]
  have h := (claim_C7_loss_carryforward oracle0 oracle0 [tx6Buy, tx6Sell] 2 100
    (by norm_num)).1 (by rw [hP]; norm_num)
  refine ⟨by norm_num, ?_⟩
  rw [h.1, hP]
  norm_num [qRound2]

/-! ## C8: dividend/withholding pairing rule -/

/-- C8: for a dividend, a same-symbol withholding record on the same
calendar day is selected when one exists; otherwise any selected record is
same-symbol with the minimal absolute day distance, at most 5 days away;
when every same-symbol candidate is farther than 5 days the dividend is
unmatched; an unmatched dividend carries zero credit, and the result always
satisfies tax_to_pay = max(0, polish_tax - credited withholding). -/
theorem claim_C8_wht_pairing (div : UnifiedTransaction) (whts : List UnifiedTransaction) :
    ((∃ w ∈ whts, w.symbol = div.symbol ∧ w.tradeDate.day = div.tradeDate.day) →
      ∃ w, DividendCalculator.findMatchingWht div whts = some w ∧
        w.symbol = div.symbol ∧ w.tradeDate.day = div.tradeDate.day) ∧
    ((∀ w ∈ whts, w.symbol = div.symbol → w.tradeDate.day ≠ div.tradeDate.day) →
      ∀ w, DividendCalculator.findMatchingWht div whts = some w →
        w.symbol = div.symbol ∧
        dayDist w.tradeDate.day div.tradeDate.day ≤ 5 ∧
        ∀ w' ∈ whts, w'.symbol = div.symbol →
          dayDist w.tradeDate.day div.tradeDate.day ≤
            dayDist w'.tradeDate.day div.tradeDate.day) ∧
    ((∀ w ∈ whts, w.symbol = div.symbol →
        ¬ dayDist w.tradeDate.day div.tradeDate.day ≤ 5) →
      DividendCalculator.findMatchingWht div whts = none) ∧
    (DividendCalculator.findMatchingWht div whts = none →
      (DividendCalculator.divResultFor whts div).whtAmountPln = 0 ∧
      (DividendCalculator.divResultFor whts div).whtAmount = 0) ∧
    ((DividendCalculator.divResultFor whts div).taxToPayPoland =
      max 0 ((DividendCalculator.divResultFor whts div).polishTaxDue -
        (DividendCalculator.divResultFor whts div).whtAmountPln)) := by
  have hmemC : ∀ x, x ∈ whts.filter (fun w => decide (w.symbol = div.symbol)) ↔
      (x ∈ whts ∧ x.symbol = div.symbol) := by
    intro x
    simp [List.mem_filter]
  refine ⟨?_, ?_, ?_, ?_, ?_⟩
  · -- exact same-day preference
    rintro ⟨w, hw, hsym, hday⟩
    have hwC : w ∈ whts.filter (fun w => decide (w.symbol = div.symbol)) :=
      (hmemC w).mpr ⟨hw, hsym⟩
    have hsome : (List.find? (fun x => decide (x.tradeDate.day = div.tradeDate.day))
        (whts.filter (fun w => decide (w.symbol = div.symbol)))).isSome := by
      exact List.find?_isSome.mpr ⟨w, hwC, by simp [hday]⟩
    obtain ⟨w', hfind⟩ := Option.isSome_iff_exists.mp hsome
    have hday' : w'.tradeDate.day = div.tradeDate.day := by
      have := List.find?_some hfind
      simpa using this
    have hsym' : w'.symbol = div.symbol :=
      ((hmemC w').mp (List.mem_of_find?_eq_some hfind)).2
    refine ⟨w', ?_, hsym', hday'⟩
    unfold DividendCalculator.findMatchingWht
    cases hC : whts.filter (fun w => decide (w.symbol = div.symbol)) with
    | nil => rw [hC] at hwC; exact absurd hwC (List.not_mem_nil w)
    | cons c cs =>
      rw [hC] at hfind
      simp only [hfind]
  · -- closest-within-5 fallback
    intro hnone w hres
    have hfindnone : List.find? (fun x => decide (x.tradeDate.day = div.tradeDate.day))
        (whts.filter (fun w => decide (w.symbol = div.symbol))) = none := by
      rw [List.find?_eq_none]
      intro x hx
      have hx' := (hmemC x).mp hx
      simp [hnone x hx'.1 hx'.2]
    haveI : IsTotal UnifiedTransaction (fun a b =>
        dayDist a.tradeDate.day div.tradeDate.day ≤
          dayDist b.tradeDate.day div.tradeDate.day) := ⟨fun a b => Nat.le_total _ _⟩
    haveI : IsTrans UnifiedTransaction (fun a b =>
        dayDist a.tradeDate.day div.tradeDate.day ≤
          dayDist b.tradeDate.day div.tradeDate.day) := ⟨fun a b c => Nat.le_trans⟩
    unfold DividendCalculator.findMatchingWht at hres
    revert hres
    cases hC : whts.filter (fun w => decide (w.symbol = div.symbol)) with
    | nil => intro hres; exact absurd hres (by simp)
    | cons c cs =>
      rw [hC] at hfindnone
      simp only [hfindnone]
      have hperm := List.perm_insertionSort (fun a b =>
        dayDist a.tradeDate.day div.tradeDate.day ≤
          dayDist b.tradeDate.day div.tradeDate.day) (c :: cs)
      have hsorted := List.sorted_insertionSort (fun a b =>
        dayDist a.tradeDate.day div.tradeDate.day ≤
          dayDist b.tradeDate.day div.tradeDate.day) (c :: cs)
      cases hs : List.insertionSort (fun a b =>
          dayDist a.tradeDate.day div.tradeDate.day ≤
            dayDist b.tradeDate.day div.tradeDate.day) (c :: cs) with
      | nil => intro hres; exact absurd hres (by simp)
      | cons best rest =>
        intro hres
        dsimp only at hres
        have hd5 : dayDist best.tradeDate.day div.tradeDate.day ≤ 5 := by
          by_contra hgt
          rw [if_neg hgt] at hres
          exact absurd hres (by simp)
        rw [if_pos hd5] at hres
        have hbw : best = w := by simpa using hres
        subst hbw
        rw [hs] at hperm hsorted
        have hbestC : best ∈ whts.filter (fun w => decide (w.symbol = div.symbol)) := by
          rw [hC]
          exact hperm.mem_iff.mp (List.mem_cons_self best rest)
        refine ⟨((hmemC best).mp hbestC).2, hd5, ?_⟩
        intro w' hw' hsym'
        have hw'C : w' ∈ (c :: cs) := by
          rw [← hC]
          exact (hmemC w').mpr ⟨hw', hsym'⟩
        have hw'sorted : w' ∈ best :: rest := hperm.mem_iff.mpr hw'C
        rcases List.mem_cons.mp hw'sorted with h | h
        · rw [h]
        · exact (List.sorted_cons.mp hsorted).1 w' h
  · -- all candidates farther than 5 days: unmatched
    intro hfar
    have hfindnone : List.find? (fun x => decide (x.tradeDate.day = div.tradeDate.day))
        (whts.filter (fun w => decide (w.symbol = div.symbol))) = none := by
      rw [List.find?_eq_none]
      intro x hx
      have hx' := (hmemC x).mp hx
      have : ¬ x.tradeDate.day = div.tradeDate.day := by
        intro hday
        exact hfar x hx'.1 hx'.2 (by simp [dayDist, hday])
      simp [this]
    unfold DividendCalculator.findMatchingWht
    cases hC : whts.filter (fun w => decide (w.symbol = div.symbol)) with
    | nil => rfl
    | cons c cs =>
      rw [hC] at hfindnone
      simp only [hfindnone]
      have hperm := List.perm_insertionSort (fun a b =>
        dayDist a.tradeDate.day div.tradeDate.day ≤
          dayDist b.tradeDate.day div.tradeDate.day) (c :: cs)
      cases hs : List.insertionSort (fun a b =>
          dayDist a.tradeDate.day div.tradeDate.day ≤
            dayDist b.tradeDate.day div.tradeDate.day) (c :: cs) with
      | nil => rfl
      | cons best rest =>
        rw [hs] at hperm
        have hbestC : best ∈ whts.filter (fun w => decide (w.symbol = div.symbol)) := by
          rw [hC]
          exact hperm.mem_iff.mp (List.mem_cons_self best rest)
        have hb := (hmemC best).mp hbestC
        dsimp only
        rw [if_neg (hfar best hb.1 hb.2)]
  · -- unmatched: zero credit
    intro hnone
    constructor <;> simp [DividendCalculator.divResultFor, hnone]
  · -- residual-tax law
    cases h : DividendCalculator.findMatchingWht div whts <;>
      simp [DividendCalculator.divResultFor, h]


/-- C8 witness: a concrete same-day pairing, with the existence hypothesis
discharged at a concrete record. -/
theorem claim_C8_witness :
    ∃ w, DividendCalculator.findMatchingWht ex10Div1 [ex8Wht] = some w ∧
      w.symbol = ex10Div1.symbol ∧ w.tradeDate.day = ex10Div1.tradeDate.day :=
  (claim_C8_wht_pairing ex10Div1 [ex8Wht]).1 ⟨ex8Wht, by simp, rfl, rfl⟩

/-! ## FIFO engine: queue-consumption lemmas -/

theorem nonOrphanQty_append (l₁ l₂ : List FifoMatch) (s : String) :
    nonOrphanQty (l₁ ++ l₂) s = nonOrphanQty l₁ s + nonOrphanQty l₂ s := by
  simp [nonOrphanQty]

theorem nonOrphanQty_of_uniform (ms : List FifoMatch) (sym s : String)
    (h : ∀ m ∈ ms, m.isOrphan = false ∧ m.symbol = sym) :
    nonOrphanQty ms s = if sym = s then matchQtySum ms else 0 := by
  induction ms with
  | nil => simp [nonOrphanQty, matchQtySum]
  | cons m rest ih =>
    have hm := h m (List.mem_cons_self m rest)
    have hrest := ih fun x hx => h x (List.mem_cons_of_mem m hx)
    by_cases hs : sym = s
    · simp [nonOrphanQty, matchQtySum, hm.1, hm.2, hs] at hrest ⊢
      exact hrest
    · simp only [nonOrphanQty, List.map_cons, List.sum_cons, hm.2, hm.1]
      rw [if_neg (by simp [hs])]
      simpa [nonOrphanQty, hs] using hrest

theorem coverShorts_spec (buyTx : UnifiedTransaction) :
    ∀ (sq : List FifoEngine.ShortLot) (q : ℚ),
      (∀ l ∈ sq, 0 < l.remainingQty) → 0 ≤ q →
      (∀ m ∈ (FifoEngine.coverShorts buyTx q sq).1,
          m.isOrphan = false ∧ m.symbol = buyTx.symbol ∧ m.isShort = true) ∧
      matchQtySum (FifoEngine.coverShorts buyTx q sq).1 =
        q - (FifoEngine.coverShorts buyTx q sq).2.2 ∧
      qtySumS (FifoEngine.coverShorts buyTx q sq).2.1 =
        qtySumS sq - (q - (FifoEngine.coverShorts buyTx q sq).2.2) ∧
      0 ≤ (FifoEngine.coverShorts buyTx q sq).2.2 ∧
      (∀ l ∈ (FifoEngine.coverShorts buyTx q sq).2.1, 0 < l.remainingQty) := by
  intro sq
  induction sq with
  | nil =>
    intro q hpos hq
    simp only [FifoEngine.coverShorts]
    exact ⟨fun m hm => absurd hm (List.not_mem_nil m),
      by simp [matchQtySum], by simp [qtySumS], hq,
      fun l hl => absurd hl (List.not_mem_nil l)⟩
  | cons lot rest ih =>
    intro q hpos hq
    have hlot : 0 < lot.remainingQty := hpos lot (List.mem_cons_self lot rest)
    have hrest : ∀ l ∈ rest, 0 < l.remainingQty :=
      fun l hl => hpos l (List.mem_cons_of_mem lot hl)
    by_cases h0 : 0 < q
    · by_cases hnr : lot.remainingQty - min q lot.remainingQty ≤ 0
      · -- lot fully consumed and popped
        have hmeq : min q lot.remainingQty = lot.remainingQty :=
          le_antisymm (min_le_right q lot.remainingQty) (by linarith)
        have hq' : (0 : ℚ) ≤ q - min q lot.remainingQty := by
          have := min_le_left q lot.remainingQty
          linarith
        obtain ⟨ih1, ih2, ih3, ih4, ih5⟩ := ih (q - min q lot.remainingQty) hrest hq'
        simp only [FifoEngine.coverShorts, if_pos h0, if_pos hnr]
        refine ⟨?_, ?_, ?_, ih4, ih5⟩
        · intro m hm
          rcases List.mem_cons.mp hm with hm | hm
          · subst hm
            exact ⟨rfl, rfl, rfl⟩
          · exact ih1 m hm
        · simp only [matchQtySum, List.map_cons, List.sum_cons] at ih2 ⊢
          have hqm : ({ FifoEngine.createMatch buyTx.symbol (min q lot.remainingQty)
              buyTx lot.transaction buyTx.quantity lot.transaction.quantity
              with isShort := true } : FifoMatch).quantity =
              min q lot.remainingQty := rfl
          rw [hqm, ih2]
          ring
        · simp only [qtySumS, List.map_cons, List.sum_cons] at ih3 ⊢
          rw [ih3]
          rw [show qtySumS rest = (rest.map FifoEngine.ShortLot.remainingQty).sum from rfl] at *
          linarith [hmeq]
      · -- lot partially consumed, stays at the head
        have hmq : min q lot.remainingQty = q := by
          rcases min_choice q lot.remainingQty with h | h
          · exact h
          · exact absurd (by rw [h]; simp) hnr
        simp only [FifoEngine.coverShorts, if_pos h0, if_neg hnr]
        refine ⟨?_, ?_, ?_, ?_, ?_⟩
        · intro m hm
          rcases List.mem_cons.mp hm with hm | hm
          · subst hm
            exact ⟨rfl, rfl, rfl⟩
          · exact absurd hm (List.not_mem_nil m)
        · simp only [matchQtySum, List.map_cons, List.map_nil, List.sum_cons,
            List.sum_nil]
          have hqm : ({ FifoEngine.createMatch buyTx.symbol (min q lot.remainingQty)
              buyTx lot.transaction buyTx.quantity lot.transaction.quantity
              with isShort := true } : FifoMatch).quantity =
              min q lot.remainingQty := rfl
          rw [hqm, hmq]
          ring
        · simp only [qtySumS, List.map_cons, List.sum_cons]
          rw [hmq]
          ring
        · rw [hmq]; simp
        · intro l hl
          rcases List.mem_cons.mp hl with hl | hl
          · subst hl
            simpa using not_le.mp hnr
          · exact hrest l hl
    · simp only [FifoEngine.coverShorts, if_neg h0]
      exact ⟨fun m hm => absurd hm (List.not_mem_nil m),
        by simp [matchQtySum], by simp [qtySumS], hq, hpos⟩

theorem sellFromBuys_spec (sellTx : UnifiedTransaction) :
    ∀ (bq : List FifoEngine.BuyLot) (q : ℚ),
      (∀ l ∈ bq, 0 < l.remainingQty) → 0 ≤ q →
      (∀ m ∈ (FifoEngine.sellFromBuys sellTx q bq).1,
          m.isOrphan = false ∧ m.symbol = sellTx.symbol ∧ m.isShort = false) ∧
      matchQtySum (FifoEngine.sellFromBuys sellTx q bq).1 =
        q - (FifoEngine.sellFromBuys sellTx q bq).2.2 ∧
      qtySumB (FifoEngine.sellFromBuys sellTx q bq).2.1 =
        qtySumB bq - (q - (FifoEngine.sellFromBuys sellTx q bq).2.2) ∧
      0 ≤ (FifoEngine.sellFromBuys sellTx q bq).2.2 ∧
      (∀ l ∈ (FifoEngine.sellFromBuys sellTx q bq).2.1, 0 < l.remainingQty) := by
  intro bq
  induction bq with
  | nil =>
    intro q hpos hq
    simp only [FifoEngine.sellFromBuys]
    exact ⟨fun m hm => absurd hm (List.not_mem_nil m),
      by simp [matchQtySum], by simp [qtySumB], hq,
      fun l hl => absurd hl (List.not_mem_nil l)⟩
  | cons lot rest ih =>
    intro q hpos hq
    have hlot : 0 < lot.remainingQty := hpos lot (List.mem_cons_self lot rest)
    have hrest : ∀ l ∈ rest, 0 < l.remainingQty :=
      fun l hl => hpos l (List.mem_cons_of_mem lot hl)
    by_cases h0 : 0 < q
    · by_cases hnr : lot.remainingQty - min q lot.remainingQty ≤ 0
      · have hmeq : min q lot.remainingQty = lot.remainingQty :=
          le_antisymm (min_le_right q lot.remainingQty) (by linarith)
        have hq2 : (0 : ℚ) ≤ q - min q lot.remainingQty := by
          have := min_le_left q lot.remainingQty
          linarith
        obtain ⟨ih1, ih2, ih3, ih4, ih5⟩ := ih (q - min q lot.remainingQty) hrest hq2
        simp only [FifoEngine.sellFromBuys, if_pos h0, if_pos hnr]
        refine ⟨?_, ?_, ?_, ih4, ih5⟩
        · intro m hm
          rcases List.mem_cons.mp hm with hm | hm
          · subst hm
            exact ⟨rfl, rfl, rfl⟩
          · exact ih1 m hm
        · simp only [matchQtySum, List.map_cons, List.sum_cons] at ih2 ⊢
          have hqm : (FifoEngine.createMatch sellTx.symbol (min q lot.remainingQty)
              lot.transaction sellTx lot.transaction.quantity sellTx.quantity).quantity =
              min q lot.remainingQty := rfl
          rw [hqm, ih2]
          ring
        · simp only [qtySumB, List.map_cons, List.sum_cons] at ih3 ⊢
          rw [ih3]
          rw [show qtySumB rest = (rest.map FifoEngine.BuyLot.remainingQty).sum from rfl] at *
          linarith [hmeq]
      · have hmq : min q lot.remainingQty = q := by
          rcases min_choice q lot.remainingQty with h | h
          · exact h
          · exact absurd (by rw [h]; simp) hnr
        simp only [FifoEngine.sellFromBuys, if_pos h0, if_neg hnr]
        refine ⟨?_, ?_, ?_, ?_, ?_⟩
        · intro m hm
          rcases List.mem_cons.mp hm with hm | hm
          · subst hm
            exact ⟨rfl, rfl, rfl⟩
          · exact absurd hm (List.not_mem_nil m)
        · simp only [matchQtySum, List.map_cons, List.map_nil, List.sum_cons,
            List.sum_nil]
          have hqm : (FifoEngine.createMatch sellTx.symbol (min q lot.remainingQty)
              lot.transaction sellTx lot.transaction.quantity sellTx.quantity).quantity =
              min q lot.remainingQty := rfl
          rw [hqm, hmq]
          ring
        · simp only [qtySumB, List.map_cons, List.sum_cons]
          rw [hmq]
          ring
        · rw [hmq]; simp
        · intro l hl
          rcases List.mem_cons.mp hl with hl | hl
          · subst hl
            simpa using not_le.mp hnr
          · exact hrest l hl
    · simp only [FifoEngine.sellFromBuys, if_neg h0]
      exact ⟨fun m hm => absurd hm (List.not_mem_nil m),
        by simp [matchQtySum], by simp [qtySumB], hq, hpos⟩

theorem buyTotal_snoc (l : List UnifiedTransaction) (tx : UnifiedTransaction)
    (s : String) :
    buyTotal (l ++ [tx]) s = buyTotal l s +
      (if tx.action = ActionType.buy ∧ tx.symbol = s then tx.quantity else 0) := by
  simp [buyTotal]

theorem sellTotal_snoc (l : List UnifiedTransaction) (tx : UnifiedTransaction)
    (s : String) :
    sellTotal (l ++ [tx]) s = sellTotal l s +
      (if tx.action = ActionType.sell ∧ tx.symbol = s then tx.quantity else 0) := by
  simp [sellTotal]

theorem qtySumB_snoc (l : List FifoEngine.BuyLot) (lot : FifoEngine.BuyLot) :
    qtySumB (l ++ [lot]) = qtySumB l + lot.remainingQty := by
  simp [qtySumB]

theorem stepBuy_invariant (processed : List UnifiedTransaction)
    (st : FifoEngine.EngineState) (tx : UnifiedTransaction)
    (hact : tx.action = ActionType.buy) (h : EngineInvariant processed st)
    (hq : 0 < tx.quantity) :
    EngineInvariant (processed ++ [tx]) (FifoEngine.stepBuy st tx) := by
  obtain ⟨hB, hS, hPB, hPS, hNB, hNS, hNO⟩ := h
  have hsqpos : ∀ l ∈ (alookup st.shortQueues tx.symbol).getD [],
      0 < l.remainingQty := by
    cases hl : alookup st.shortQueues tx.symbol with
    | none => simp
    | some q0 =>
      intro l hlm
      exact hPS (tx.symbol, q0) (alookup_mem hl) l (by simpa using hlm)
  obtain ⟨cs1, cs2, cs3, cs4, cs5⟩ :=
    coverShorts_spec tx ((alookup st.shortQueues tx.symbol).getD [])
      tx.quantity hsqpos (le_of_lt hq)
  have hmatches : (FifoEngine.stepBuy st tx).matches = st.matches ++
      (FifoEngine.coverShorts tx tx.quantity
        ((alookup st.shortQueues tx.symbol).getD [])).1 := rfl
  have hshortQ : (FifoEngine.stepBuy st tx).shortQueues =
      (match alookup st.shortQueues tx.symbol with
       | some _ => aupd st.shortQueues tx.symbol
          (FifoEngine.coverShorts tx tx.quantity
            ((alookup st.shortQueues tx.symbol).getD [])).2.1
       | none => st.shortQueues) := rfl
  have hbuyQ : (FifoEngine.stepBuy st tx).buyQueues =
      (if 0 < (FifoEngine.coverShorts tx tx.quantity
          ((alookup st.shortQueues tx.symbol).getD [])).2.2 then
        aupd st.buyQueues tx.symbol
          ((alookup st.buyQueues tx.symbol).getD [] ++
            [{ transaction := tx,
               remainingQty := (FifoEngine.coverShorts tx tx.quantity
                 ((alookup st.shortQueues tx.symbol).getD [])).2.2 }])
       else st.buyQueues) := rfl
  have hnoq : ∀ s, nonOrphanQty (FifoEngine.stepBuy st tx).matches s =
      nonOrphanQty st.matches s +
        (if tx.symbol = s then
          tx.quantity - (FifoEngine.coverShorts tx tx.quantity
            ((alookup st.shortQueues tx.symbol).getD [])).2.2 else 0) := by
    intro s
    rw [hmatches, nonOrphanQty_append,
      nonOrphanQty_of_uniform _ tx.symbol s
        (fun m hm => ⟨(cs1 m hm).1, (cs1 m hm).2.1⟩)]
    split
    · rw [cs2]
    · rfl
  refine ⟨?_, ?_, ?_, ?_, ?_, ?_, ?_⟩
  · -- buy-side conservation
    intro s
    rw [buyTotal_snoc, hnoq, hbuyQ]
    by_cases hs : tx.symbol = s
    · subst hs
      rw [if_pos ⟨hact, rfl⟩, if_pos rfl]
      split
      · rw [alookup_aupd, if_pos rfl, Option.getD_some, qtySumB_snoc]
        have := hB tx.symbol
        linarith
      · next hpush =>
        have hrem0 : (FifoEngine.coverShorts tx tx.quantity
            ((alookup st.shortQueues tx.symbol).getD [])).2.2 = 0 :=
          le_antisymm (not_lt.mp hpush) cs4
        rw [hrem0]
        have := hB tx.symbol
        linarith
    · rw [if_neg (fun hc => hs hc.2), if_neg hs]
      split
      · rw [alookup_aupd, if_neg (fun hc => hs hc.symm)]
        have := hB s
        linarith
      · have := hB s
        linarith
  · -- sell-side conservation
    intro s
    rw [sellTotal_snoc, hnoq, hshortQ]
    cases hl : alookup st.shortQueues tx.symbol with
    | none =>
      rw [if_neg (by rintro ⟨hc, -⟩; rw [hact] at hc; cases hc)]
      dsimp only
      rw [show ((none : Option (List FifoEngine.ShortLot)).getD []) =
        ([] : List FifoEngine.ShortLot) from rfl]
      have hcs2 : (FifoEngine.coverShorts tx tx.quantity []).2.2 = tx.quantity := rfl
      rw [hcs2]
      have := hS s
      split
      · linarith
      · linarith
    | some q0 =>
      rw [if_neg (by rintro ⟨hc, -⟩; rw [hact] at hc; cases hc)]
      by_cases hs : tx.symbol = s
      · subst hs
        simp only [alookup_aupd, if_true, eq_self_iff_true, Option.getD_some]
        rw [hl, Option.getD_some] at cs3
        rw [cs3]
        have hSs := hS tx.symbol
        rw [hl, Option.getD_some] at hSs
        linarith
      · rw [if_neg hs, alookup_aupd, if_neg (fun hc => hs hc.symm)]
        have := hS s
        linarith
  · -- buy-queue positivity
    rw [hbuyQ]
    split
    · next hpush =>
      intro p hp
      rcases aupd_mem hp with hp | hp
      · subst hp
        intro l hl
        rcases List.mem_append.mp hl with hl | hl
        · cases hlk : alookup st.buyQueues tx.symbol with
          | none => rw [hlk] at hl; simp at hl
          | some q1 =>
            rw [hlk] at hl
            exact hPB (tx.symbol, q1) (alookup_mem hlk) l (by simpa using hl)
        · rw [List.mem_singleton] at hl
          subst hl
          exact hpush
      · exact hPB p hp
    · exact hPB
  · -- short-queue positivity
    rw [hshortQ]
    cases hl : alookup st.shortQueues tx.symbol with
    | none => exact hPS
    | some q0 =>
      intro p hp
      rcases aupd_mem hp with hp | hp
      · subst hp
        rw [hl] at cs5
        exact cs5
      · exact hPS p hp
  · -- buy-queue key nodup
    rw [hbuyQ]
    split
    · exact aupd_keys_nodup hNB tx.symbol _
    · exact hNB
  · -- short-queue key nodup
    rw [hshortQ]
    cases alookup st.shortQueues tx.symbol with
    | none => exact hNS
    | some q0 => exact aupd_keys_nodup hNS tx.symbol _
  · -- loop matches stay non-orphan
    rw [hmatches]
    intro m hm
    rcases List.mem_append.mp hm with hm | hm
    · exact hNO m hm
    · exact (cs1 m hm).1

theorem qtySumS_snoc (l : List FifoEngine.ShortLot) (lot : FifoEngine.ShortLot) :
    qtySumS (l ++ [lot]) = qtySumS l + lot.remainingQty := by
  simp [qtySumS]

theorem stepSell_invariant (processed : List UnifiedTransaction)
    (st : FifoEngine.EngineState) (tx : UnifiedTransaction)
    (hact : tx.action = ActionType.sell) (h : EngineInvariant processed st)
    (hq : 0 < tx.quantity) :
    EngineInvariant (processed ++ [tx]) (FifoEngine.stepSell st tx) := by
  obtain ⟨hB, hS, hPB, hPS, hNB, hNS, hNO⟩ := h
  have hbqpos : ∀ l ∈ (alookup st.buyQueues tx.symbol).getD [],
      0 < l.remainingQty := by
    cases hl : alookup st.buyQueues tx.symbol with
    | none => simp
    | some q0 =>
      intro l hlm
      exact hPB (tx.symbol, q0) (alookup_mem hl) l (by simpa using hlm)
  obtain ⟨cs1, cs2, cs3, cs4, cs5⟩ :=
    sellFromBuys_spec tx ((alookup st.buyQueues tx.symbol).getD [])
      tx.quantity hbqpos (le_of_lt hq)
  have hmatches : (FifoEngine.stepSell st tx).matches = st.matches ++
      (FifoEngine.sellFromBuys tx tx.quantity
        ((alookup st.buyQueues tx.symbol).getD [])).1 := rfl
  have hbuyQ : (FifoEngine.stepSell st tx).buyQueues =
      (match alookup st.buyQueues tx.symbol with
       | some _ => aupd st.buyQueues tx.symbol
          (FifoEngine.sellFromBuys tx tx.quantity
            ((alookup st.buyQueues tx.symbol).getD [])).2.1
       | none => st.buyQueues) := rfl
  have hshortQ : (FifoEngine.stepSell st tx).shortQueues =
      (if 0 < (FifoEngine.sellFromBuys tx tx.quantity
          ((alookup st.buyQueues tx.symbol).getD [])).2.2 then
        aupd st.shortQueues tx.symbol
          ((alookup st.shortQueues tx.symbol).getD [] ++
            [{ transaction := tx,
               remainingQty := (FifoEngine.sellFromBuys tx tx.quantity
                 ((alookup st.buyQueues tx.symbol).getD [])).2.2 }])
       else st.shortQueues) := rfl
  have hnoq : ∀ s, nonOrphanQty (FifoEngine.stepSell st tx).matches s =
      nonOrphanQty st.matches s +
        (if tx.symbol = s then
          tx.quantity - (FifoEngine.sellFromBuys tx tx.quantity
            ((alookup st.buyQueues tx.symbol).getD [])).2.2 else 0) := by
    intro s
    rw [hmatches, nonOrphanQty_append,
      nonOrphanQty_of_uniform _ tx.symbol s
        (fun m hm => ⟨(cs1 m hm).1, (cs1 m hm).2.1⟩)]
    split
    · rw [cs2]
    · rfl
  refine ⟨?_, ?_, ?_, ?_, ?_, ?_, ?_⟩
  · -- buy-side conservation (lots are consumed from the buy queue)
    intro s
    rw [buyTotal_snoc, hnoq, hbuyQ]
    cases hl : alookup st.buyQueues tx.symbol with
    | none =>
      rw [if_neg (by rintro ⟨hc, -⟩; rw [hact] at hc; cases hc)]
      dsimp only
      rw [show ((none : Option (List FifoEngine.BuyLot)).getD []) =
        ([] : List FifoEngine.BuyLot) from rfl]
      have hcs2 : (FifoEngine.sellFromBuys tx tx.quantity []).2.2 = tx.quantity := rfl
      rw [hcs2]
      have := hB s
      split
      · linarith
      · linarith
    | some q0 =>
      rw [if_neg (by rintro ⟨hc, -⟩; rw [hact] at hc; cases hc)]
      by_cases hs : tx.symbol = s
      · subst hs
        simp only [alookup_aupd, if_true, eq_self_iff_true, Option.getD_some]
        rw [hl, Option.getD_some] at cs3
        rw [cs3]
        have hBs := hB tx.symbol
        rw [hl, Option.getD_some] at hBs
        linarith
      · rw [if_neg hs, alookup_aupd, if_neg (fun hc => hs hc.symm)]
        have := hB s
        linarith
  · -- sell-side conservation (remainder pushed as a short lot)
    intro s
    rw [sellTotal_snoc, hnoq, hshortQ]
    by_cases hs : tx.symbol = s
    · subst hs
      rw [if_pos ⟨hact, rfl⟩, if_pos rfl]
      split
      · rw [alookup_aupd, if_pos rfl, Option.getD_some, qtySumS_snoc]
        have := hS tx.symbol
        linarith
      · next hpush =>
        have hrem0 : (FifoEngine.sellFromBuys tx tx.quantity
            ((alookup st.buyQueues tx.symbol).getD [])).2.2 = 0 :=
          le_antisymm (not_lt.mp hpush) cs4
        rw [hrem0]
        have := hS tx.symbol
        linarith
    · rw [if_neg (fun hc => hs hc.2), if_neg hs]
      split
      · rw [alookup_aupd, if_neg (fun hc => hs hc.symm)]
        have := hS s
        linarith
      · have := hS s
        linarith
  · -- buy-queue positivity
    rw [hbuyQ]
    cases hl : alookup st.buyQueues tx.symbol with
    | none => exact hPB
    | some q0 =>
      intro p hp
      rcases aupd_mem hp with hp | hp
      · subst hp
        rw [hl] at cs5
        exact cs5
      · exact hPB p hp
  · -- short-queue positivity
    rw [hshortQ]
    split
    · next hpush =>
      intro p hp
      rcases aupd_mem hp with hp | hp
      · subst hp
        intro l hl
        rcases List.mem_append.mp hl with hl | hl
        · cases hlk : alookup st.shortQueues tx.symbol with
          | none => rw [hlk] at hl; simp at hl
          | some q1 =>
            rw [hlk] at hl
            exact hPS (tx.symbol, q1) (alookup_mem hlk) l (by simpa using hl)
        · rw [List.mem_singleton] at hl
          subst hl
          exact hpush
      · exact hPS p hp
    · exact hPS
  · -- buy-queue key nodup
    rw [hbuyQ]
    cases alookup st.buyQueues tx.symbol with
    | none => exact hNB
    | some q0 => exact aupd_keys_nodup hNB tx.symbol _
  · -- short-queue key nodup
    rw [hshortQ]
    split
    · exact aupd_keys_nodup hNS tx.symbol _
    · exact hNS
  · -- loop matches stay non-orphan
    rw [hmatches]
    intro m hm
    rcases List.mem_append.mp hm with hm | hm
    · exact hNO m hm
    · exact (cs1 m hm).1

theorem stepTx_invariant (processed : List UnifiedTransaction)
    (st : FifoEngine.EngineState) (tx : UnifiedTransaction)
    (h : EngineInvariant processed st) (hq : 0 < tx.quantity) :
    EngineInvariant (processed ++ [tx]) (FifoEngine.stepTx st tx) := by
  obtain ⟨hB, hS, hPB, hPS, hNB, hNS, hNO⟩ := h
  cases hact : tx.action with
  | buy =>
    have hstep : FifoEngine.stepTx st tx = FifoEngine.stepBuy st tx := by
      simp only [FifoEngine.stepTx, hact]
    rw [hstep]
    exact stepBuy_invariant processed st tx hact
      ⟨hB, hS, hPB, hPS, hNB, hNS, hNO⟩ hq
  | sell =>
    have hstep : FifoEngine.stepTx st tx = FifoEngine.stepSell st tx := by
      simp only [FifoEngine.stepTx, hact]
    rw [hstep]
    exact stepSell_invariant processed st tx hact
      ⟨hB, hS, hPB, hPS, hNB, hNS, hNO⟩ hq
  | dividend =>
    have hstep : FifoEngine.stepTx st tx = st := by
      simp only [FifoEngine.stepTx, hact]
    rw [hstep]
    refine ⟨?_, ?_, hPB, hPS, hNB, hNS, hNO⟩ <;> intro s
    · rw [buyTotal_snoc, if_neg (by rintro ⟨hc, -⟩; rw [hact] at hc; cases hc)]
      have := hB s
      linarith
    · rw [sellTotal_snoc, if_neg (by rintro ⟨hc, -⟩; rw [hact] at hc; cases hc)]
      have := hS s
      linarith
  | taxWht =>
    have hstep : FifoEngine.stepTx st tx = st := by
      simp only [FifoEngine.stepTx, hact]
    rw [hstep]
    refine ⟨?_, ?_, hPB, hPS, hNB, hNS, hNO⟩ <;> intro s
    · rw [buyTotal_snoc, if_neg (by rintro ⟨hc, -⟩; rw [hact] at hc; cases hc)]
      have := hB s
      linarith
    · rw [sellTotal_snoc, if_neg (by rintro ⟨hc, -⟩; rw [hact] at hc; cases hc)]
      have := hS s
      linarith
  | fee =>
    have hstep : FifoEngine.stepTx st tx = st := by
      simp only [FifoEngine.stepTx, hact]
    rw [hstep]
    refine ⟨?_, ?_, hPB, hPS, hNB, hNS, hNO⟩ <;> intro s
    · rw [buyTotal_snoc, if_neg (by rintro ⟨hc, -⟩; rw [hact] at hc; cases hc)]
      have := hB s
      linarith
    · rw [sellTotal_snoc, if_neg (by rintro ⟨hc, -⟩; rw [hact] at hc; cases hc)]
      have := hS s
      linarith
  | corporateAction =>
    have hstep : FifoEngine.stepTx st tx = st := by
      simp only [FifoEngine.stepTx, hact]
    rw [hstep]
    refine ⟨?_, ?_, hPB, hPS, hNB, hNS, hNO⟩ <;> intro s
    · rw [buyTotal_snoc, if_neg (by rintro ⟨hc, -⟩; rw [hact] at hc; cases hc)]
      have := hB s
      linarith
    · rw [sellTotal_snoc, if_neg (by rintro ⟨hc, -⟩; rw [hact] at hc; cases hc)]
      have := hS s
      linarith


theorem foldl_invariant : ∀ (l : List UnifiedTransaction)
    (st : FifoEngine.EngineState) (processed : List UnifiedTransaction),
    EngineInvariant processed st → (∀ t ∈ l, 0 < t.quantity) →
    EngineInvariant (processed ++ l) (l.foldl FifoEngine.stepTx st) := by
  intro l
  induction l with
  | nil =>
    intro st processed h _
    simpa using h
  | cons t ts ih =>
    intro st processed h hq
    have h1 := stepTx_invariant processed st t h (hq t (List.mem_cons_self t ts))
    have h2 := ih (FifoEngine.stepTx st t) (processed ++ [t]) h1
      (fun x hx => hq x (List.mem_cons_of_mem t hx))
    simpa using h2

theorem initial_invariant : EngineInvariant [] ⟨[], [], []⟩ := by
  refine ⟨?_, ?_, ?_, ?_, ?_, ?_, ?_⟩ <;>
    simp [buyTotal, sellTotal, nonOrphanQty, qtySumB, qtySumS, alookup]

theorem mem_sortedBuysSells {t : UnifiedTransaction}
    {txs : List UnifiedTransaction} (h : t ∈ FifoEngine.sortedBuysSells txs) :
    t ∈ txs := by
  unfold FifoEngine.sortedBuysSells at h
  exact List.mem_of_mem_filter ((List.perm_insertionSort _ _).mem_iff.mp h)

theorem finalState_invariant (txs : List UnifiedTransaction)
    (hq : ∀ t ∈ txs, 0 < t.quantity) :
    EngineInvariant (FifoEngine.sortedBuysSells txs) (FifoEngine.finalState txs) := by
  have h := foldl_invariant (FifoEngine.sortedBuysSells txs) ⟨[], [], []⟩ []
    initial_invariant (fun t ht => hq t (mem_sortedBuysSells ht))
  simpa [FifoEngine.finalState] using h

theorem buyTotal_cons (t : UnifiedTransaction) (l : List UnifiedTransaction)
    (s : String) :
    buyTotal (t :: l) s = (if t.action = ActionType.buy ∧ t.symbol = s
      then t.quantity else 0) + buyTotal l s := by
  simp [buyTotal]

theorem sellTotal_cons (t : UnifiedTransaction) (l : List UnifiedTransaction)
    (s : String) :
    sellTotal (t :: l) s = (if t.action = ActionType.sell ∧ t.symbol = s
      then t.quantity else 0) + sellTotal l s := by
  simp [sellTotal]

theorem buyTotal_perm {l1 l2 : List UnifiedTransaction} (h : l1.Perm l2)
    (s : String) : buyTotal l1 s = buyTotal l2 s :=
  (h.map _).sum_eq

theorem sellTotal_perm {l1 l2 : List UnifiedTransaction} (h : l1.Perm l2)
    (s : String) : sellTotal l1 s = sellTotal l2 s :=
  (h.map _).sum_eq

theorem buyTotal_filter_buysell (txs : List UnifiedTransaction) (s : String) :
    buyTotal (txs.filter fun t =>
      match t.action with
      | ActionType.buy => true
      | ActionType.sell => true
      | _ => false) s = buyTotal txs s := by
  induction txs with
  | nil => rfl
  | cons t ts ih =>
    cases hact : t.action <;>
      simp [List.filter_cons, buyTotal_cons, ih, hact]

theorem sellTotal_filter_buysell (txs : List UnifiedTransaction) (s : String) :
    sellTotal (txs.filter fun t =>
      match t.action with
      | ActionType.buy => true
      | ActionType.sell => true
      | _ => false) s = sellTotal txs s := by
  induction txs with
  | nil => rfl
  | cons t ts ih =>
    cases hact : t.action <;>
      simp [List.filter_cons, sellTotal_cons, ih, hact]

theorem buyTotal_sorted (txs : List UnifiedTransaction) (s : String) :
    buyTotal (FifoEngine.sortedBuysSells txs) s = buyTotal txs s := by
  unfold FifoEngine.sortedBuysSells
  rw [buyTotal_perm (List.perm_insertionSort _ _) s, buyTotal_filter_buysell]

theorem sellTotal_sorted (txs : List UnifiedTransaction) (s : String) :
    sellTotal (FifoEngine.sortedBuysSells txs) s = sellTotal txs s := by
  unfold FifoEngine.sortedBuysSells
  rw [sellTotal_perm (List.perm_insertionSort _ _) s, sellTotal_filter_buysell]


theorem nonOrphanQty_of_orphans (ms : List FifoMatch) (s : String)
    (h : ∀ m ∈ ms, m.isOrphan = true) : nonOrphanQty ms s = 0 := by
  induction ms with
  | nil => simp [nonOrphanQty]
  | cons m rest ih =>
    have hm := h m (List.mem_cons_self m rest)
    simp [nonOrphanQty, hm] at ih ⊢
    simpa [nonOrphanQty] using ih fun x hx => h x (List.mem_cons_of_mem m hx)

theorem orphanQty_of_nonorphans (ms : List FifoMatch) (s : String)
    (h : ∀ m ∈ ms, m.isOrphan = false) : orphanQty ms s = 0 := by
  induction ms with
  | nil => simp [orphanQty]
  | cons m rest ih =>
    have hm := h m (List.mem_cons_self m rest)
    simp [orphanQty, hm] at ih ⊢
    simpa [orphanQty] using ih fun x hx => h x (List.mem_cons_of_mem m hx)

theorem orphanQty_append (l1 l2 : List FifoMatch) (s : String) :
    orphanQty (l1 ++ l2) s = orphanQty l1 s + orphanQty l2 s := by
  simp [orphanQty]

theorem filter_pos_eq_self_short (q : List FifoEngine.ShortLot)
    (h : ∀ l ∈ q, 0 < l.remainingQty) :
    (q.filter fun lot => decide (0 < lot.remainingQty)) = q :=
  List.filter_eq_self.mpr fun a ha => decide_eq_true (h a ha)

theorem filter_pos_eq_self_buy (q : List FifoEngine.BuyLot)
    (h : ∀ l ∈ q, 0 < l.remainingQty) :
    (q.filter fun lot => decide (0 < lot.remainingQty)) = q :=
  List.filter_eq_self.mpr fun a ha => decide_eq_true (h a ha)

theorem orphanQty_cons (m : FifoMatch) (ms : List FifoMatch) (s : String) :
    orphanQty (m :: ms) s =
      (if m.symbol = s ∧ m.isOrphan = true then m.quantity else 0) +
        orphanQty ms s := by
  simp [orphanQty]

theorem orphanQty_entry (k : String) (q : List FifoEngine.ShortLot) (s : String) :
    orphanQty ((q.map fun lot => (k, lot)).map fun p =>
      FifoEngine.createOrphanMatch p.1 p.2.remainingQty p.2.transaction
        p.2.transaction.quantity) s = if k = s then qtySumS q else 0 := by
  induction q with
  | nil => simp [orphanQty, qtySumS]
  | cons lot rest ih =>
    rw [List.map_cons, List.map_cons, orphanQty_cons, ih]
    by_cases hk : k = s
    · subst hk
      rw [if_pos rfl, if_pos rfl, if_pos ⟨rfl, rfl⟩]
      show lot.remainingQty + qtySumS rest = qtySumS (lot :: rest)
      simp [qtySumS]
    · rw [if_neg hk, if_neg hk, if_neg (by rintro ⟨hc, -⟩; exact hk hc)]
      simp

theorem orphanQty_leftovers_not_mem (sq : List (String × List FifoEngine.ShortLot))
    (s : String) (h : s ∉ sq.map Prod.fst) :
    orphanQty ((FifoEngine.leftoversOf sq).map fun p =>
      FifoEngine.createOrphanMatch p.1 p.2.remainingQty p.2.transaction
        p.2.transaction.quantity) s = 0 := by
  induction sq with
  | nil => simp [FifoEngine.leftoversOf, orphanQty]
  | cons hd tl ih =>
    simp only [List.map_cons, List.mem_cons, not_or] at h
    rw [FifoEngine.leftoversOf, List.flatMap_cons, List.map_append,
      orphanQty_append]
    rw [show (FifoEngine.leftoversOf tl) = tl.flatMap (fun p =>
      (p.2.filter fun lot => decide (0 < lot.remainingQty)).map
        fun lot => (p.1, lot)) from rfl] at ih
    rw [ih h.2]
    have := orphanQty_entry hd.1
      (hd.2.filter fun lot => decide (0 < lot.remainingQty)) s
    rw [this, if_neg (fun he => h.1 he.symm)]
    simp

theorem orphanQty_leftovers (sq : List (String × List FifoEngine.ShortLot))
    (s : String) (hnd : (sq.map Prod.fst).Nodup)
    (hpos : ∀ p ∈ sq, ∀ l ∈ p.2, 0 < l.remainingQty) :
    orphanQty ((FifoEngine.leftoversOf sq).map fun p =>
      FifoEngine.createOrphanMatch p.1 p.2.remainingQty p.2.transaction
        p.2.transaction.quantity) s = qtySumS ((alookup sq s).getD []) := by
  induction sq with
  | nil => simp [FifoEngine.leftoversOf, orphanQty, alookup, qtySumS]
  | cons hd tl ih =>
    rw [List.map_cons, List.nodup_cons] at hnd
    have hposhd : ∀ l ∈ hd.2, 0 < l.remainingQty :=
      hpos hd (List.mem_cons_self hd tl)
    rw [FifoEngine.leftoversOf, List.flatMap_cons, List.map_append,
      orphanQty_append]
    rw [show (FifoEngine.leftoversOf tl) = tl.flatMap (fun p =>
      (p.2.filter fun lot => decide (0 < lot.remainingQty)).map
        fun lot => (p.1, lot)) from rfl] at ih
    rw [filter_pos_eq_self_short hd.2 hposhd, orphanQty_entry]
    by_cases hk : hd.1 = s
    · rw [if_pos hk]
      have htl : orphanQty ((tl.flatMap fun p =>
          (p.2.filter fun lot => decide (0 < lot.remainingQty)).map
            fun lot => (p.1, lot)).map fun p =>
          FifoEngine.createOrphanMatch p.1 p.2.remainingQty p.2.transaction
            p.2.transaction.quantity) s = 0 := by
        have := orphanQty_leftovers_not_mem tl s (by rw [← hk]; exact hnd.1)
        rw [show (FifoEngine.leftoversOf tl) = tl.flatMap (fun p =>
          (p.2.filter fun lot => decide (0 < lot.remainingQty)).map
            fun lot => (p.1, lot)) from rfl] at this
        exact this
      rw [htl]
      obtain ⟨k, q⟩ := hd
      simp only at hk
      rw [alookup, if_pos hk, Option.getD_some]
      simp
    · rw [if_neg hk]
      obtain ⟨k, q⟩ := hd
      simp only at hk
      rw [alookup, if_neg hk]
      have := ih hnd.2 fun p hp => hpos p (List.mem_cons_of_mem _ hp)
      rw [this]
      simp


theorem openPos_drop (hd : String × List FifoEngine.BuyLot)
    (tl : List (String × List FifoEngine.BuyLot))
    (he : (hd.2.filter fun lot => decide (0 < lot.remainingQty)).isEmpty = true) :
    FifoEngine.openPositionsOf (hd :: tl) = FifoEngine.openPositionsOf tl := by
  rw [FifoEngine.openPositionsOf, List.filterMap_cons]
  dsimp only
  rw [if_pos he]
  rfl

theorem openPos_keep (hd : String × List FifoEngine.BuyLot)
    (tl : List (String × List FifoEngine.BuyLot))
    (he : ¬ (hd.2.filter fun lot => decide (0 < lot.remainingQty)).isEmpty = true) :
    FifoEngine.openPositionsOf (hd :: tl) =
      (hd.1, hd.2.filter fun lot => decide (0 < lot.remainingQty)) ::
        FifoEngine.openPositionsOf tl := by
  rw [FifoEngine.openPositionsOf, List.filterMap_cons]
  dsimp only
  rw [if_neg he]
  rfl

theorem openPos_alookup_none (bq : List (String × List FifoEngine.BuyLot))
    (s : String) (h : s ∉ bq.map Prod.fst) :
    alookup (FifoEngine.openPositionsOf bq) s = none := by
  induction bq with
  | nil => rfl
  | cons hd tl ih =>
    simp only [List.map_cons, List.mem_cons, not_or] at h
    by_cases he : (hd.2.filter fun lot => decide (0 < lot.remainingQty)).isEmpty = true
    · rw [openPos_drop hd tl he]
      exact ih h.2
    · rw [openPos_keep hd tl he, alookup, if_neg (fun heq => h.1 heq.symm)]
      exact ih h.2

theorem openQty_lookup (bq : List (String × List FifoEngine.BuyLot)) (s : String)
    (hnd : (bq.map Prod.fst).Nodup)
    (hpos : ∀ p ∈ bq, ∀ l ∈ p.2, 0 < l.remainingQty) :
    qtySumB ((alookup (FifoEngine.openPositionsOf bq) s).getD []) =
      qtySumB ((alookup bq s).getD []) := by
  induction bq with
  | nil => rfl
  | cons hd tl ih =>
    rw [List.map_cons, List.nodup_cons] at hnd
    have hposhd : ∀ l ∈ hd.2, 0 < l.remainingQty :=
      hpos hd (List.mem_cons_self hd tl)
    have hrest : ∀ p ∈ tl, ∀ l ∈ p.2, 0 < l.remainingQty :=
      fun p hp => hpos p (List.mem_cons_of_mem hd hp)
    have hfilter : (hd.2.filter fun lot => decide (0 < lot.remainingQty)) = hd.2 :=
      filter_pos_eq_self_buy hd.2 hposhd
    obtain ⟨k, q⟩ := hd
    simp only at hposhd hfilter hnd
    by_cases hq0 : q = []
    · have he : ((k, q).2.filter fun lot => decide (0 < lot.remainingQty)).isEmpty = true := by
        show (q.filter fun lot => decide (0 < lot.remainingQty)).isEmpty = true
        rw [hfilter, hq0]
        rfl
      rw [openPos_drop (k, q) tl he]
      by_cases hk : k = s
      · rw [openPos_alookup_none tl s (by rw [← hk]; exact hnd.1)]
        rw [alookup, if_pos hk, Option.getD_some, hq0]
        simp [qtySumB]
      · rw [alookup, if_neg hk]
        exact ih hnd.2 hrest
    · have he : ¬ ((k, q).2.filter fun lot => decide (0 < lot.remainingQty)).isEmpty = true := by
        show ¬ (q.filter fun lot => decide (0 < lot.remainingQty)).isEmpty = true
        rw [hfilter]
        cases q with
        | nil => exact absurd rfl hq0
        | cons a l => simp
      rw [openPos_keep (k, q) tl he]
      show qtySumB ((alookup ((k, q.filter fun lot => decide (0 < lot.remainingQty)) ::
        FifoEngine.openPositionsOf tl) s).getD []) = qtySumB ((alookup ((k, q) :: tl) s).getD [])
      rw [hfilter]
      by_cases hk : k = s
      · rw [alookup, if_pos hk, alookup, if_pos hk]
      · rw [alookup, if_neg hk, alookup, if_neg hk]
        exact ih hnd.2 hrest

theorem coverShorts_isOrphan (buyTx : UnifiedTransaction) :
    ∀ (sq : List FifoEngine.ShortLot) (q : ℚ) (m : FifoMatch),
      m ∈ (FifoEngine.coverShorts buyTx q sq).1 → m.isOrphan = false := by
  intro sq
  induction sq with
  | nil => intro q m hm; exact absurd hm (List.not_mem_nil m)
  | cons lot rest ih =>
    intro q m hm
    by_cases h0 : 0 < q
    · by_cases hnr : lot.remainingQty - min q lot.remainingQty ≤ 0
      · rw [show (FifoEngine.coverShorts buyTx q (lot :: rest)).1 =
          ({ FifoEngine.createMatch buyTx.symbol (min q lot.remainingQty) buyTx
              lot.transaction buyTx.quantity lot.transaction.quantity with
              isShort := true } ::
            (FifoEngine.coverShorts buyTx (q - min q lot.remainingQty) rest).1)
          from by simp only [FifoEngine.coverShorts, if_pos h0, if_pos hnr]] at hm
        rcases List.mem_cons.mp hm with hm | hm
        · subst hm; rfl
        · exact ih _ m hm
      · rw [show (FifoEngine.coverShorts buyTx q (lot :: rest)).1 =
          [{ FifoEngine.createMatch buyTx.symbol (min q lot.remainingQty) buyTx
              lot.transaction buyTx.quantity lot.transaction.quantity with
              isShort := true }]
          from by simp only [FifoEngine.coverShorts, if_pos h0, if_neg hnr]] at hm
        rw [List.mem_singleton] at hm
        subst hm; rfl
    · rw [show (FifoEngine.coverShorts buyTx q (lot :: rest)).1 = []
        from by simp only [FifoEngine.coverShorts, if_neg h0]] at hm
      exact absurd hm (List.not_mem_nil m)

theorem sellFromBuys_isOrphan (sellTx : UnifiedTransaction) :
    ∀ (bq : List FifoEngine.BuyLot) (q : ℚ) (m : FifoMatch),
      m ∈ (FifoEngine.sellFromBuys sellTx q bq).1 → m.isOrphan = false := by
  intro bq
  induction bq with
  | nil => intro q m hm; exact absurd hm (List.not_mem_nil m)
  | cons lot rest ih =>
    intro q m hm
    by_cases h0 : 0 < q
    · by_cases hnr : lot.remainingQty - min q lot.remainingQty ≤ 0
      · rw [show (FifoEngine.sellFromBuys sellTx q (lot :: rest)).1 =
          (FifoEngine.createMatch sellTx.symbol (min q lot.remainingQty)
              lot.transaction sellTx lot.transaction.quantity sellTx.quantity ::
            (FifoEngine.sellFromBuys sellTx (q - min q lot.remainingQty) rest).1)
          from by simp only [FifoEngine.sellFromBuys, if_pos h0, if_pos hnr]] at hm
        rcases List.mem_cons.mp hm with hm | hm
        · subst hm; rfl
        · exact ih _ m hm
      · rw [show (FifoEngine.sellFromBuys sellTx q (lot :: rest)).1 =
          [FifoEngine.createMatch sellTx.symbol (min q lot.remainingQty)
              lot.transaction sellTx lot.transaction.quantity sellTx.quantity]
          from by simp only [FifoEngine.sellFromBuys, if_pos h0, if_neg hnr]] at hm
        rw [List.mem_singleton] at hm
        subst hm; rfl
    · rw [show (FifoEngine.sellFromBuys sellTx q (lot :: rest)).1 = []
        from by simp only [FifoEngine.sellFromBuys, if_neg h0]] at hm
      exact absurd hm (List.not_mem_nil m)

theorem stepTx_nonorphan (st : FifoEngine.EngineState) (tx : UnifiedTransaction)
    (h : ∀ m ∈ st.matches, m.isOrphan = false) :
    ∀ m ∈ (FifoEngine.stepTx st tx).matches, m.isOrphan = false := by
  cases hact : tx.action with
  | buy =>
    have hstep : FifoEngine.stepTx st tx = FifoEngine.stepBuy st tx := by
      simp only [FifoEngine.stepTx, hact]
    rw [hstep]
    intro m hm
    rcases List.mem_append.mp hm with hm | hm
    · exact h m hm
    · exact coverShorts_isOrphan tx _ _ m hm
  | sell =>
    have hstep : FifoEngine.stepTx st tx = FifoEngine.stepSell st tx := by
      simp only [FifoEngine.stepTx, hact]
    rw [hstep]
    intro m hm
    rcases List.mem_append.mp hm with hm | hm
    · exact h m hm
    · exact sellFromBuys_isOrphan tx _ _ m hm
  | dividend =>
    have hstep : FifoEngine.stepTx st tx = st := by
      simp only [FifoEngine.stepTx, hact]
    rw [hstep]; exact h
  | taxWht =>
    have hstep : FifoEngine.stepTx st tx = st := by
      simp only [FifoEngine.stepTx, hact]
    rw [hstep]; exact h
  | fee =>
    have hstep : FifoEngine.stepTx st tx = st := by
      simp only [FifoEngine.stepTx, hact]
    rw [hstep]; exact h
  | corporateAction =>
    have hstep : FifoEngine.stepTx st tx = st := by
      simp only [FifoEngine.stepTx, hact]
    rw [hstep]; exact h

theorem finalState_nonorphan (txs : List UnifiedTransaction) :
    ∀ m ∈ (FifoEngine.finalState txs).matches, m.isOrphan = false := by
  have haux : ∀ (l : List UnifiedTransaction) (st : FifoEngine.EngineState),
      (∀ m ∈ st.matches, m.isOrphan = false) →
      ∀ m ∈ (l.foldl FifoEngine.stepTx st).matches, m.isOrphan = false := by
    intro l
    induction l with
    | nil => intro st h; exact h
    | cons t ts ih =>
      intro st h
      exact ih (FifoEngine.stepTx st t) (stepTx_nonorphan st t h)
  exact haux (FifoEngine.sortedBuysSells txs) ⟨[], [], []⟩
    (fun m hm => absurd hm (List.not_mem_nil m))


/-- C1: Quantity conservation of FIFO matching. For every input list of
transactions with positive quantities and every symbol, in the result of
`FifoEngine.process` the non-orphan matched quantity plus the remaining
open-buy-lot quantity equals the total BUY quantity, and the non-orphan
matched quantity plus the orphan matched quantity equals the total SELL
quantity: matching neither creates nor destroys quantity. -/
theorem claim_C1_conservation (txs : List UnifiedTransaction)
    (hq : ∀ t ∈ txs, 0 < t.quantity) (s : String) :
    buyTotal txs s =
      nonOrphanQty (FifoEngine.process txs).«matches» s +
        openQty (FifoEngine.process txs) s ∧
    sellTotal txs s =
      nonOrphanQty (FifoEngine.process txs).«matches» s +
        orphanQty (FifoEngine.process txs).«matches» s := by
  obtain ⟨hB, hS, hPB, hPS, hNB, hNS, hNO⟩ := finalState_invariant txs hq
  have hm : (FifoEngine.process txs).«matches» =
      (FifoEngine.finalState txs).«matches» ++
        ((FifoEngine.finalShortLeftovers txs).map fun p =>
          FifoEngine.createOrphanMatch p.1 p.2.remainingQty p.2.transaction
            p.2.transaction.quantity) := rfl
  have hopen : (FifoEngine.process txs).openPositions =
      FifoEngine.openPositionsOf (FifoEngine.finalState txs).buyQueues := rfl
  have horph : ∀ m ∈ ((FifoEngine.finalShortLeftovers txs).map fun p =>
      FifoEngine.createOrphanMatch p.1 p.2.remainingQty p.2.transaction
        p.2.transaction.quantity), m.isOrphan = true := by
    intro m hm'
    obtain ⟨p, _, hpe⟩ := List.mem_map.mp hm'
    rw [← hpe]; rfl
  constructor
  · simp only [openQty]
    rw [hm, nonOrphanQty_append, nonOrphanQty_of_orphans _ s horph, add_zero,
      hopen, openQty_lookup _ s hNB hPB, ← buyTotal_sorted txs s, hB s]
  · rw [hm, nonOrphanQty_append, nonOrphanQty_of_orphans _ s horph, add_zero,
      orphanQty_append, orphanQty_of_nonorphans _ s hNO, zero_add,
      show FifoEngine.finalShortLeftovers txs =
        FifoEngine.leftoversOf (FifoEngine.finalState txs).shortQueues from rfl,
      orphanQty_leftovers _ s hNS hPS, ← sellTotal_sorted txs s, hS s]

theorem claim_C1_witness :
    buyTotal [tx6Buy, tx6Sell] "XYZ" =
      nonOrphanQty (FifoEngine.process [tx6Buy, tx6Sell]).«matches» "XYZ" +
        openQty (FifoEngine.process [tx6Buy, tx6Sell]) "XYZ" ∧
    sellTotal [tx6Buy, tx6Sell] "XYZ" =
      nonOrphanQty (FifoEngine.process [tx6Buy, tx6Sell]).«matches» "XYZ" +
        orphanQty (FifoEngine.process [tx6Buy, tx6Sell]).«matches» "XYZ" :=
  claim_C1_conservation [tx6Buy, tx6Sell]
    (by
      intro t ht
      rcases List.mem_cons.mp ht with h | h
      · rw [h]; norm_num [tx6Buy, baseTx]
      · rw [List.mem_singleton] at h; rw [h]; norm_num [tx6Sell, baseTx])
    "XYZ"

/-- C4: Orphan-sell semantics. The orphan matches of `FifoEngine.process`
are exactly one `createOrphanMatch` per leftover short lot with positive
remainder; every orphan match in the result has `buyCostPln = 0`,
`buyPrice = 0`, `buyNbpRate = 0` and `profitPln = sellRevenuePln` (so
profit = revenue − cost with cost 0); one warning is appended per orphan
match; and `createOrphanMatch` takes quantity, price and rate from the
sell side only and flags `isOrphan = true`. -/
theorem claim_C4_orphan_semantics (txs : List UnifiedTransaction) :
    ((FifoEngine.process txs).«matches».filter fun m => m.isOrphan) =
      ((FifoEngine.finalShortLeftovers txs).map fun p =>
        FifoEngine.createOrphanMatch p.1 p.2.remainingQty p.2.transaction
          p.2.transaction.quantity) ∧
    (∀ m ∈ (FifoEngine.process txs).«matches», m.isOrphan = true →
      m.buyCostPln = 0 ∧ m.buyPrice = 0 ∧ m.buyNbpRate = 0 ∧
        m.profitPln = m.sellRevenuePln) ∧
    (FifoEngine.process txs).warnings.length =
      ((FifoEngine.process txs).«matches».filter fun m => m.isOrphan).length ∧
    (∀ (sym : String) (q : ℚ) (sellTx : UnifiedTransaction) (tot : ℚ),
      (FifoEngine.createOrphanMatch sym q sellTx tot).isOrphan = true ∧
      (FifoEngine.createOrphanMatch sym q sellTx tot).quantity = q ∧
      (FifoEngine.createOrphanMatch sym q sellTx tot).sellPrice = sellTx.price ∧
      (FifoEngine.createOrphanMatch sym q sellTx tot).sellNbpRate =
        sellTx.nbpRate.getD 1) := by
  have hloop := finalState_nonorphan txs
  have hm : (FifoEngine.process txs).«matches» =
      (FifoEngine.finalState txs).«matches» ++
        ((FifoEngine.finalShortLeftovers txs).map fun p =>
          FifoEngine.createOrphanMatch p.1 p.2.remainingQty p.2.transaction
            p.2.transaction.quantity) := rfl
  have horph : ∀ m ∈ ((FifoEngine.finalShortLeftovers txs).map fun p =>
      FifoEngine.createOrphanMatch p.1 p.2.remainingQty p.2.transaction
        p.2.transaction.quantity), m.isOrphan = true := by
    intro m hm'
    obtain ⟨p, _, hpe⟩ := List.mem_map.mp hm'
    rw [← hpe]; rfl
  have hfilter : ((FifoEngine.process txs).«matches».filter fun m => m.isOrphan) =
      ((FifoEngine.finalShortLeftovers txs).map fun p =>
        FifoEngine.createOrphanMatch p.1 p.2.remainingQty p.2.transaction
          p.2.transaction.quantity) := by
    rw [hm, List.filter_append,
      List.filter_eq_nil_iff.mpr (fun m hmem => by simp [hloop m hmem]),
      List.nil_append,
      List.filter_eq_self.mpr (fun m hmem => horph m hmem)]
  refine ⟨hfilter, ?_, ?_, ?_⟩
  · intro m hmem hio
    rw [hm] at hmem
    rcases List.mem_append.mp hmem with h | h
    · exact absurd hio (by simp [hloop m h])
    · obtain ⟨p, _, hpe⟩ := List.mem_map.mp h
      rw [← hpe]
      exact ⟨rfl, rfl, rfl, rfl⟩
  · rw [hfilter]
    have hw : (FifoEngine.process txs).warnings =
        (FifoEngine.finalShortLeftovers txs).map fun p =>
          FifoEngine.orphanWarning p.1 p.2.remainingQty p.2.transaction.tradeDate.day :=
      rfl
    rw [hw, List.length_map, List.length_map]
  · intro sym q sellTx tot
    exact ⟨rfl, rfl, rfl, rfl⟩

theorem claim_C4_witness :
    (FifoEngine.createOrphanMatch "ORP" 1 tx9Sell 1).buyCostPln = 0 ∧
    (FifoEngine.createOrphanMatch "ORP" 1 tx9Sell 1).buyPrice = 0 ∧
    (FifoEngine.createOrphanMatch "ORP" 1 tx9Sell 1).buyNbpRate = 0 ∧
    (FifoEngine.createOrphanMatch "ORP" 1 tx9Sell 1).profitPln =
      (FifoEngine.createOrphanMatch "ORP" 1 tx9Sell 1).sellRevenuePln :=
  (claim_C4_orphan_semantics [tx9Sell]).2.1
    (FifoEngine.createOrphanMatch "ORP" 1 tx9Sell 1)
    (by
      have h : (FifoEngine.process [tx9Sell]).«matches» =
          [FifoEngine.createOrphanMatch "ORP" 1 tx9Sell 1] := rfl
      rw [h]; exact List.mem_singleton.mpr rfl)
    rfl


end Taxpilot
